import Mathlib

/-!
# Verification of the Leadgenpro lead-generation core

Shallow embedding of the enrichment/deduplication core of the Leadgenpro
repository (`core/database.py`, `core/enrichment.py`, `core/external_apis.py`,
`core/categorization.py`) together with proofs settling the frozen claims
about it.

Modelling conventions:
* Python strings are `String`; SQL `NULL`-able text columns are `Option String`
  (`none` = SQL `NULL`); Python truthiness of such a value is `truthy`
  (`None` and `""` are falsy).
* Python's `str.strip().lower()` is `pyNorm` (all-whitespace trim + ASCII
  case-fold); SQLite's `LOWER(TRIM(x))` is `sqlNorm` (space-only trim + ASCII
  case-fold) — SQLite's default `TRIM` removes only space characters, so the
  two normalizations differ on tab/newline/CR-padded strings.
* JSON-decoded Python values are the untagged type `PyObj`; `json_loads`
  is a fuel-indexed parser for the JSON fragment the claims exercise
  (null/bool/integer/string/array/object with the common escapes; floats and
  `\u` escapes are outside the model).
* External services (Google CSE, the Selenium browser, the Ollama HTTP
  endpoint) are oracles bundled in an `Env`; every call the orchestrator
  makes is recorded in an event log so that "performs no lookup call"
  claims are statements about the log.
* Uncaught Python exceptions are `Except` errors; exceptions the source
  catches are handled inside the corresponding definition.
-/

set_option autoImplicit false

namespace Leadgenpro

/-- Python truthiness of an optional string column value:
`None` and the empty string are falsy. -/
def truthy : Option String → Bool
  | none => false
  | some s => s ≠ ""

/-- Whitespace stripped by `str.strip()` (the characters the claims exercise). -/
def isWs (c : Char) : Bool := c = ' ' ∨ c = '\t' ∨ c = '\n' ∨ c = '\r'

/-- `str.strip()` over the character list (structurally recursive so that
closed computations reduce). -/
def pyTrim (s : String) : String :=
  ⟨((s.data.dropWhile isWs).reverse.dropWhile isWs).reverse⟩

/-- ASCII case-fold of one character. -/
def lowerChar (c : Char) : Char :=
  if 'A' ≤ c ∧ c ≤ 'Z' then Char.ofNat (c.toNat + 32) else c

/-- `str.lower()` restricted to ASCII (which is also exactly what SQLite's
`LOWER` does; the claims only exercise ASCII data). -/
def pyLower (s : String) : String := ⟨s.data.map lowerChar⟩

/-- `str.strip().lower()` in Python. -/
def pyNorm (s : String) : String := pyLower (pyTrim s)

/-- SQLite `TRIM(x)` with the default removal set: it strips ONLY space
characters from both ends — unlike Python's `str.strip()`, it does not strip
tabs, newlines or carriage returns. -/
def sqlTrim (s : String) : String :=
  ⟨((s.data.dropWhile (fun c => c == ' ')).reverse.dropWhile (fun c => c == ' ')).reverse⟩

/-- `LOWER(TRIM(x))` in SQLite: space-only trim, then ASCII case-fold.
Narrower than `pyNorm`: the two agree exactly on strings whose boundary
whitespace consists of spaces only. -/
def sqlNorm (s : String) : String := pyLower (sqlTrim s)

/-- Python f-string interpolation of a value that may be `None`
(`f"{None}"` renders as `"None"`). -/
def optStr : Option String → String
  | none => "None"
  | some s => s

/-! ## Python values decoded from JSON (`json.loads` results) -/

/-- Untagged Python values as produced by `json.loads`: JSON `null` decodes to
Python `None`, so a decoded value is not distinguishable by provenance. -/
inductive PyObj where
  | none
  | bool (b : Bool)
  | int (n : Int)
  | str (s : String)
  | list (xs : List PyObj)
  | dict (kvs : List (String × PyObj))

/-- Python truthiness of a `PyObj`. -/
def pyTruthy : PyObj → Bool
  | .none => false
  | .bool b => b
  | .int n => n ≠ 0
  | .str s => s ≠ ""
  | .list xs => ¬xs.isEmpty
  | .dict kvs => ¬kvs.isEmpty

/-- `dict.get k`: later duplicate keys of a decoded JSON object win,
as in Python's `json` module. -/
def dictGet (kvs : List (String × PyObj)) (k : String) : Option PyObj :=
  match kvs with
  | [] => Option.none
  | (k', v) :: rest =>
    match dictGet rest k with
    | some v' => some v'
    | Option.none => if k' = k then some v else Option.none

/-- `d.get(k)` on a Python dict: missing keys give `None`. -/
def dictGetD (v : PyObj) (k : String) : PyObj :=
  match v with
  | .dict kvs => (dictGet kvs k).getD .none
  | _ => .none

/-- The TEXT representation SQLite stores when a decoded Python value is bound
to a text column.  Only truthy values are ever committed by the code under
verification, and for those the stored text is non-empty. -/
def pyToStored : PyObj → Option String
  | .none => Option.none
  | .bool b => some (if b then "1" else "0")
  | .int n => some (toString n)
  | .str s => some s
  | .list _ => some "<unsupported-binding>"
  | .dict _ => some "<unsupported-binding>"

/-! ## A fuel-indexed `json.loads` for the fragment the claims exercise -/

/-- Skip JSON whitespace. -/
def skipWs : List Char → List Char
  | c :: cs => if c = ' ' ∨ c = '\n' ∨ c = '\t' ∨ c = '\r' then skipWs cs else c :: cs
  | [] => []

/-- Decode one escaped character after a backslash; `none` for escapes
outside the modelled fragment. -/
def unescape (e : Char) : Option Char :=
  if e = '"' then some '"'
  else if e = '\\' then some '\\'
  else if e = '/' then some '/'
  else if e = 'n' then some '\n'
  else if e = 't' then some '\t'
  else if e = 'r' then some '\r'
  else if e = 'b' then some (Char.ofNat 8)
  else if e = 'f' then some (Char.ofNat 12)
  else Option.none

/-- Parse the body of a JSON string after the opening quote. -/
def parseStrBody : Nat → List Char → Option (String × List Char)
  | 0, _ => Option.none
  | _ + 1, [] => Option.none
  | fuel + 1, c :: cs =>
    if c = '"' then some ("", cs)
    else if c = '\\' then
      match cs with
      | e :: cs' =>
        match unescape e with
        | some d => (parseStrBody fuel cs').map (fun p => (⟨d :: p.1.data⟩, p.2))
        | Option.none => Option.none
      | [] => Option.none
    else (parseStrBody fuel cs).map (fun p => (⟨c :: p.1.data⟩, p.2))

/-- Leading decimal digits of a character list. -/
def takeDigits : List Char → List Char × List Char
  | c :: cs =>
    if c.isDigit then
      let p := takeDigits cs
      (c :: p.1, p.2)
    else ([], c :: cs)
  | [] => ([], [])

def digitsToNat (ds : List Char) : Nat :=
  ds.foldl (fun a c => a * 10 + (c.toNat - 48)) 0

/-- After an integer literal, reject the float/exponent syntax that is
outside the modelled fragment rather than mis-parsing it. -/
def intBoundaryOk : List Char → Bool
  | c :: _ => ¬(c = '.' ∨ c = 'e' ∨ c = 'E')
  | [] => true

mutual

/-- Parse one JSON value. -/
def parseVal : Nat → List Char → Option (PyObj × List Char)
  | 0, _ => Option.none
  | fuel + 1, cs =>
    match skipWs cs with
    | 'n' :: 'u' :: 'l' :: 'l' :: rest => some (.none, rest)
    | 't' :: 'r' :: 'u' :: 'e' :: rest => some (.bool true, rest)
    | 'f' :: 'a' :: 'l' :: 's' :: 'e' :: rest => some (.bool false, rest)
    | '"' :: rest =>
      (parseStrBody (rest.length + 1) rest).map (fun p => (PyObj.str p.1, p.2))
    | '[' :: rest =>
      match skipWs rest with
      | ']' :: r => some (.list [], r)
      | cs' => (parseElems fuel cs').map (fun p => (PyObj.list p.1, p.2))
    | '\x7b' :: rest =>
      match skipWs rest with
      | '\x7d' :: r => some (.dict [], r)
      | cs' => (parseMembers fuel cs').map (fun p => (PyObj.dict p.1, p.2))
    | '-' :: rest =>
      match takeDigits rest with
      | ([], _) => Option.none
      | (ds, r) =>
        if intBoundaryOk r then some (.int (-(digitsToNat ds : Int)), r) else Option.none
    | c :: rest =>
      if c.isDigit then
        match takeDigits (c :: rest) with
        | (ds, r) =>
          if intBoundaryOk r then some (.int (digitsToNat ds), r) else Option.none
      else Option.none
    | [] => Option.none

/-- Parse `v (, v)* ]` — the elements of a non-empty JSON array. -/
def parseElems : Nat → List Char → Option (List PyObj × List Char)
  | 0, _ => Option.none
  | fuel + 1, cs =>
    match parseVal fuel cs with
    | Option.none => Option.none
    | some (v, r) =>
      match skipWs r with
      | ',' :: r' => (parseElems fuel r').map (fun p => (v :: p.1, p.2))
      | ']' :: r' => some ([v], r')
      | _ => Option.none

/-- Parse `"k": v (, "k": v)* }` — the members of a non-empty JSON object. -/
def parseMembers : Nat → List Char → Option (List (String × PyObj) × List Char)
  | 0, _ => Option.none
  | fuel + 1, cs =>
    match skipWs cs with
    | '"' :: rest =>
      match parseStrBody (rest.length + 1) rest with
      | Option.none => Option.none
      | some (k, r) =>
        match skipWs r with
        | ':' :: r' =>
          match parseVal fuel r' with
          | Option.none => Option.none
          | some (v, r'') =>
            match skipWs r'' with
            | ',' :: r3 => (parseMembers fuel r3).map (fun p => ((k, v) :: p.1, p.2))
            | '\x7d' :: r3 => some ([(k, v)], r3)
            | _ => Option.none
        | _ => Option.none
    | _ => Option.none

end

/-- `json.loads`: parse a complete JSON document, rejecting trailing input. -/
def json_loads (s : String) : Option PyObj :=
  match parseVal (2 * s.length + 4) s.data with
  | some (v, r) => if skipWs r = [] then some v else Option.none
  | Option.none => Option.none

/-! ## `external_apis.call_ollama_model` -/

/-- Uncaught Python exceptions that the embedded code can raise. -/
inductive PyErr where
  | attributeError
deriving DecidableEq

/-- `core/external_apis.py::call_ollama_model`, as a function of the raw HTTP
outcome (`none` = `requests` raised, which the source catches and maps to
`None`).  The source parses the response envelope with `json.loads`
(a decode failure is caught and mapped to `None`), reads
`response_data.get("response", "")`, strips it, and when `expect_json` is set
re-parses the content — returning the raw content string when that inner
parse fails.  Calling `.get` on a non-dict envelope or `.strip()` on a
non-string field raises an uncaught `AttributeError`. -/
def call_ollama_model (raw? : Option String) (expect_json : Bool) :
    Except PyErr PyObj :=
  match raw? with
  | Option.none => .ok .none
  | some raw =>
    match json_loads raw with
    | Option.none => .ok .none
    | some (.dict kvs) =>
      match (dictGet kvs "response").getD (.str "") with
      | .str s =>
        let content := pyTrim s
        if expect_json then
          match json_loads content with
          | some v => .ok v
          | Option.none => .ok (.str content)
        else .ok (.str content)
      | _ => .error .attributeError
    | some _ => .error .attributeError

/-! ## `core/database.py`: the record store

`leads` rows.  `name` is `NOT NULL`; every other text column is nullable.
The numeric `lat`/`lng` columns and the `enriched`/`advanced_lead_reports`
tables play no role in any claim and are omitted. -/

structure Lead where
  id : Nat
  name : String
  ts : Option String := Option.none
  record_type : Option String := Option.none
  source : Option String := Option.none
  title : Option String := Option.none
  linkedin : Option String := Option.none
  website : Option String := Option.none
  phone : Option String := Option.none
  email : Option String := Option.none
  domain : Option String := Option.none
  address : Option String := Option.none
  business_type : Option String := Option.none
deriving DecidableEq

/-- A `smart_lists` row (`UNIQUE(list_name, lead_id)`). -/
structure SmartRow where
  list_name : String
  lead_id : Nat
  ai_category : Option String := Option.none
  ai_justification : Option String := Option.none
deriving DecidableEq

/-- The persistent store: `leads` rows in insertion order, the id SQLite will
assign next, and the `smart_lists` rows. -/
structure DB where
  rows : List Lead
  nextId : Nat
  smart : List SmartRow := []
deriving DecidableEq

def emptyDB : DB := { rows := [], nextId := 1 }

/-- `get_lead_by_id`: `SELECT * FROM leads WHERE id = ?` (first match). -/
def get_lead_by_id (db : DB) (lead_id : Nat) : Option Lead :=
  db.rows.find? (fun r => r.id == lead_id)

/-- Read one of the updatable columns of a row. -/
def Lead.getCol (r : Lead) (col : String) : Option String :=
  if col = "name" then some r.name
  else if col = "title" then r.title
  else if col = "linkedin" then r.linkedin
  else if col = "website" then r.website
  else if col = "phone" then r.phone
  else if col = "email" then r.email
  else if col = "domain" then r.domain
  else if col = "address" then r.address
  else if col = "record_type" then r.record_type
  else if col = "source" then r.source
  else if col = "business_type" then r.business_type
  else Option.none

/-- Write one of the updatable columns of a row (`name` is guarded against
`NULL` by the caller). -/
def Lead.setCol (r : Lead) (col : String) (v : Option String) : Lead :=
  if col = "name" then { r with name := v.getD r.name }
  else if col = "title" then { r with title := v }
  else if col = "linkedin" then { r with linkedin := v }
  else if col = "website" then { r with website := v }
  else if col = "phone" then { r with phone := v }
  else if col = "email" then { r with email := v }
  else if col = "domain" then { r with domain := v }
  else if col = "address" then { r with address := v }
  else if col = "record_type" then { r with record_type := v }
  else if col = "source" then { r with source := v }
  else if col = "business_type" then { r with business_type := v }
  else r

/-- The column allow-list of `update_lead_in_db`. -/
def allowed_cols : List String :=
  ["name", "title", "linkedin", "website", "phone", "email", "domain",
   "address", "record_type", "source", "business_type"]

/-- `database.py::update_lead_in_db`.  Rejects columns outside the allow-list.
An `UPDATE` that would violate `name NOT NULL` or `UNIQUE(name, domain)`
(SQL `NULL` domains compare distinct) raises `sqlite3.Error`, which the
source catches, returning `False` with the transaction rolled back.
Otherwise it returns `cursor.rowcount > 0`, i.e. whether a row with the
given id exists. -/
def update_lead_in_db (db : DB) (lead_id : Nat) (column : String)
    (new_value : Option String) : Bool × DB :=
  if ¬ column ∈ allowed_cols then (false, db)
  else
    match db.rows.find? (fun r => r.id == lead_id) with
    | Option.none => (false, db)
    | some r =>
      if column = "name" ∧ new_value = Option.none then (false, db)
      else
        let r' := r.setCol column new_value
        if (column = "name" ∨ column = "domain") ∧
            db.rows.any (fun r2 =>
              r2.id ≠ lead_id ∧ r2.name = r'.name ∧
              r2.domain ≠ Option.none ∧ r2.domain = r'.domain) then
          (false, db)
        else
          let rows' := db.rows.map
            (fun x => if x.id == lead_id then x.setCol column new_value else x)
          (true, { db with rows := rows' })

/-! ### `upsert_leads` -/

/-- One element of the `hits` batch passed to `upsert_leads`: the values of a
Python dict.  `name` is `str(h.get("name", ""))`; the other entries are the
raw optional values (`none` = key absent or `None`). -/
structure Hit where
  name : String := ""
  domain : Option String := Option.none
  ts : Option String := Option.none
  record_type : Option String := Option.none
  source : Option String := Option.none
  title : Option String := Option.none
  linkedin : Option String := Option.none
  website : Option String := Option.none
  phone : Option String := Option.none
  email : Option String := Option.none
  address : Option String := Option.none
  business_type : Option String := Option.none
deriving DecidableEq

/-- `domain = str(h.get("domain", "")).strip().lower() if h.get("domain") else None`. -/
def hitNormDomain (h : Hit) : Option String :=
  if truthy h.domain then some (pyNorm (h.domain.getD "")) else Option.none

/-- The preloaded `existing_with_domain` key set:
`SELECT LOWER(TRIM(name)), LOWER(TRIM(domain)) FROM leads
WHERE domain IS NOT NULL AND domain != ''` — SQLite `TRIM` strips only
spaces, hence `sqlNorm`. -/
def withDomainKeys (rows : List Lead) : List (String × String) :=
  rows.filterMap (fun r =>
    match r.domain with
    | some d => if d ≠ "" then some (sqlNorm r.name, sqlNorm d) else Option.none
    | Option.none => Option.none)

/-- The preloaded `existing_without_domain` key set:
`SELECT LOWER(TRIM(name)) FROM leads WHERE domain IS NULL OR domain = ''`
(space-only `TRIM`, hence `sqlNorm`). -/
def withoutDomainKeys (rows : List Lead) : List String :=
  rows.filterMap (fun r =>
    match r.domain with
    | some d => if d = "" then some (sqlNorm r.name) else Option.none
    | Option.none => some (sqlNorm r.name))

/-- The row the `INSERT` statement of `upsert_leads` stores: raw (unnormalized)
field values from the hit. -/
def mkLead (id : Nat) (h : Hit) : Lead :=
  { id := id, name := h.name, ts := h.ts, record_type := h.record_type,
    source := h.source, title := h.title, linkedin := h.linkedin,
    website := h.website, phone := h.phone, email := h.email,
    domain := h.domain, address := h.address, business_type := h.business_type }

/-- `UNIQUE(name, domain)` violation for the attempted insert: some existing
row has the same raw `name` and the same raw non-`NULL` `domain`
(SQLite treats `NULL`s as distinct in unique indexes). -/
def uniqueViolation (rows : List Lead) (h : Hit) : Bool :=
  rows.any (fun r =>
    r.name = h.name ∧ r.domain ≠ Option.none ∧ r.domain = h.domain)

/-- Loop state of `upsert_leads`: the table, the id counter, the two
in-memory duplicate-key sets and the running counters. -/
structure UpsertState where
  rows : List Lead
  nextId : Nat
  withKeys : List (String × String)
  withoutKeys : List String
  inserted : Nat
  skipped : Nat

/-- One iteration of the `for h in hits` loop of `upsert_leads`. -/
def upsertStep (st : UpsertState) (h : Hit) : UpsertState :=
  let name := pyNorm h.name
  let domain := hitNormDomain h
  if name = "" then { st with skipped := st.skipped + 1 }
  else
    let isDup :=
      (truthy domain ∧ (name, domain.getD "") ∈ st.withKeys) ∨
      (¬ truthy domain ∧ name ∈ st.withoutKeys)
    if isDup then { st with skipped := st.skipped + 1 }
    else if uniqueViolation st.rows h then { st with skipped := st.skipped + 1 }
    else
      { rows := st.rows ++ [mkLead st.nextId h],
        nextId := st.nextId + 1,
        withKeys := if truthy domain then (name, domain.getD "") :: st.withKeys
                    else st.withKeys,
        withoutKeys := if truthy domain then st.withoutKeys
                       else name :: st.withoutKeys,
        inserted := st.inserted + 1,
        skipped := st.skipped }

/-- `database.py::upsert_leads`: returns the new store and
`(inserted_count, skipped_count)`. -/
def upsert_leads (db : DB) (hits : List Hit) : DB × Nat × Nat :=
  if hits.isEmpty then (db, 0, 0)
  else
    let st0 : UpsertState :=
      { rows := db.rows, nextId := db.nextId,
        withKeys := withDomainKeys db.rows,
        withoutKeys := withoutDomainKeys db.rows,
        inserted := 0, skipped := 0 }
    let st := hits.foldl upsertStep st0
    ({ db with rows := st.rows, nextId := st.nextId }, st.inserted, st.skipped)

/-! ### `remove_db_duplicates` -/

/-- Rows targeted by the first sweep:
`domain IS NOT NULL AND domain != '' AND name IS NOT NULL AND name != ''`. -/
def domainful (r : Lead) : Bool :=
  (match r.domain with
   | some d => d != ""
   | Option.none => false) && r.name != ""

/-- Rows targeted by the second sweep:
`(domain IS NULL OR domain = '') AND name IS NOT NULL AND name != ''`. -/
def domainless (r : Lead) : Bool :=
  (match r.domain with
   | some d => d == ""
   | Option.none => true) && r.name != ""

/-- Normalized `(name, domain)` group key (`GROUP BY LOWER(TRIM(name)),
LOWER(TRIM(domain))`; SQLite `TRIM` strips only spaces, hence `sqlNorm`). -/
def p1key (r : Lead) : String × String :=
  (sqlNorm r.name, sqlNorm (r.domain.getD ""))

/-- Normalized `name` group key (`GROUP BY LOWER(TRIM(name))`, space-only
trim). -/
def p2key (r : Lead) : String := sqlNorm r.name

/-- Minimum of a list of naturals, `none` on the empty list (`MIN(id)`). -/
def minNat? (l : List Nat) : Option Nat :=
  l.foldr (fun n acc =>
    match acc with
    | Option.none => some n
    | some m => some (Nat.min n m)) Option.none

/-- `SELECT MIN(id) … GROUP BY …` of the first sweep, evaluated at one key. -/
def p1min (rows : List Lead) (k : String × String) : Option Nat :=
  minNat? (rows.filterMap (fun r =>
    if domainful r ∧ p1key r = k then some r.id else Option.none))

/-- The id set of the first sweep's subquery (one entry per populated group). -/
def p1minSet (rows : List Lead) : List Nat :=
  rows.filterMap (fun r =>
    if domainful r then p1min rows (p1key r) else Option.none)

/-- `SELECT MIN(id) … GROUP BY LOWER(TRIM(name))` of the second sweep. -/
def p2min (rows : List Lead) (k : String) : Option Nat :=
  minNat? (rows.filterMap (fun r =>
    if domainless r ∧ p2key r = k then some r.id else Option.none))

/-- The id set of the second sweep's subquery. -/
def p2minSet (rows : List Lead) : List Nat :=
  rows.filterMap (fun r =>
    if domainless r then p2min rows (p2key r) else Option.none)

/-- `database.py::remove_db_duplicates`: the two `DELETE` statements in
source order; returns the surviving table and `total_removed`. -/
def remove_db_duplicates (rows : List Lead) : List Lead × Nat :=
  let s1 := p1minSet rows
  let rows1 := rows.filter (fun r => ¬(domainful r ∧ ¬ r.id ∈ s1))
  let removed1 := rows.length - rows1.length
  let s2 := p2minSet rows1
  let rows2 := rows1.filter (fun r => ¬(domainless r ∧ ¬ r.id ∈ s2))
  let removed2 := rows1.length - rows2.length
  (rows2, removed1 + removed2)

/-! ### Smart lists -/

/-- `database.py::get_analyzed_lead_ids_for_list`. -/
def get_analyzed_lead_ids_for_list (db : DB) (list_name : String) : List Nat :=
  db.smart.filterMap (fun s =>
    if s.list_name = list_name then some s.lead_id else Option.none)

/-- `database.py::add_lead_to_smart_list` (`INSERT OR IGNORE`, unique on
`(list_name, lead_id)`). -/
def add_lead_to_smart_list (db : DB) (list_name : String) (lead_id : Nat)
    (ai_category ai_justification : Option String) : DB :=
  if db.smart.any (fun s => s.list_name == list_name ∧ s.lead_id == lead_id) then db
  else { db with smart := db.smart ++
          [{ list_name := list_name, lead_id := lead_id,
             ai_category := ai_category, ai_justification := ai_justification }] }

/-! ## `core/enrichment.py`: the enrichment orchestrator

External collaborators (Google CSE, the Selenium browser session, the Ollama
HTTP endpoint) are oracles in an `Env`; every external call is appended to an
event log.  `AUTOMATION_AVAILABLE` and a live `browser.driver` are assumed
(the unavailable branches return before the loops the claims are about). -/

/-- One item of a search-result list (a Python dict with `link`/`title`/
`snippet`; `result.get('link')` may be absent). -/
structure SearchResult where
  link : Option String := Option.none
  title : String := ""
  snippet : String := ""
deriving DecidableEq

/-- The prompts the orchestrator builds (template text is out of scope; a
prompt is identified by its inputs). -/
inductive Prompt where
  | websiteValidation (lead : Lead) (cand : SearchResult)
  | contactExtraction (text : String)
  | smartCategorize (lead : Lead) (goal listName : String)
deriving DecidableEq

/-- Logged external calls. -/
inductive Event where
  | gcse (q : String)
  | browserSearch (q : String) (n : Nat)
  | ollama (p : Prompt)
  | navigate (url : String)
  | clickLink
deriving DecidableEq

/-- Responses of the external world. -/
structure Env where
  gcse : String → List SearchResult
  browserSearch : String → Nat → List SearchResult
  ollamaRaw : Prompt → Option String
  navigate : String → Bool
  pageText : String → String

/-- Characters after the first `://`, if any. -/
def afterSchemeSep : List Char → Option (List Char)
  | ':' :: '/' :: '/' :: rest => some rest
  | _ :: rest => afterSchemeSep rest
  | [] => Option.none

/-- Non-overlapping left-to-right replacement of `pat` (non-empty) by `rep`,
as `str.replace`; fuel-indexed for structural termination. -/
def replaceAll (pat rep : List Char) : Nat → List Char → List Char
  | 0, cs => cs
  | _ + 1, [] => []
  | fuel + 1, c :: cs =>
    if pat ≠ [] ∧ pat.isPrefixOf (c :: cs) then
      rep ++ replaceAll pat rep fuel ((c :: cs).drop pat.length)
    else c :: replaceAll pat rep fuel cs

/-- `urlparse(url).netloc.replace("www.", "")`: the authority component is
empty when the URL has no scheme separator. -/
def netlocNoWww (url : String) : String :=
  match afterSchemeSep url.data with
  | some rest =>
    let netloc := rest.takeWhile (fun c => c != '/' && c != '?' && c != '#')
    ⟨replaceAll "www.".data [] (netloc.length + 1) netloc⟩
  | Option.none => ""

/-- `isinstance(v, dict) and v.get("is_correct_website")` — the truthiness
acceptance check of `fill_missing_data_for_leads` and
`find_and_fill_with_selenium`. -/
def acceptTruthy (v : PyObj) : Bool :=
  match v with
  | .dict kvs => pyTruthy ((dictGet kvs "is_correct_website").getD .none)
  | _ => false

/-- `isinstance(v, dict) and v.get("is_correct_website") is True` — the
strict acceptance check of `find_missing_websites_for_leads` and
`find_missing_websites_with_selenium`. -/
def acceptIsTrue (v : PyObj) : Bool :=
  match v with
  | .dict kvs =>
    match (dictGet kvs "is_correct_website").getD .none with
    | .bool true => true
    | _ => false
  | _ => false

/-- Mutable state threaded through a workflow run. -/
structure WState where
  db : DB
  log : List Event := []
deriving DecidableEq

def WState.addLog (st : WState) (e : Event) : WState :=
  { st with log := st.log ++ [e] }

/-- `f"official website for \"{lead_data['name']}\" at \"{lead_data.get('address', '')}\""`
(a `NULL` address renders as `None`, since the dict key exists). -/
def gcseQuery (lead : Lead) : String :=
  "official website for \"" ++ lead.name ++ "\" at \"" ++ optStr lead.address ++ "\""

/-- `f"\"{lead_data['name']}\" \"{lead_data.get('address', '')}\" official website"`. -/
def seleniumQuery1 (lead : Lead) : String :=
  "\"" ++ lead.name ++ "\" \"" ++ optStr lead.address ++ "\" official website"

/-- `f"\"{lead_data['name']}\" official website"`. -/
def seleniumQuery2 (lead : Lead) : String :=
  "\"" ++ lead.name ++ "\" official website"

/-! ### `find_missing_websites_for_leads` (Google CSE, strict verdict) -/

/-- One iteration of the `for lead_id in lead_ids` loop of
`find_missing_websites_for_leads`.  An `AttributeError` escaping
`call_ollama_model` is uncaught and aborts the run with the state at the
raise point.  Returns the state and the increment to `updated_leads_count`. -/
def fmwStep (env : Env) (st : WState) (lead_id : Nat) :
    Except (PyErr × WState) (WState × Nat) :=
  match get_lead_by_id st.db lead_id with
  | Option.none => .ok (st, 0)
  | some lead =>
    if truthy lead.website then .ok (st, 0)
    else
      let q := gcseQuery lead
      let st := st.addLog (.gcse q)
      match env.gcse q with
      | [] => .ok (st, 0)
      | top :: _ =>
        let p := Prompt.websiteValidation lead top
        let st := st.addLog (.ollama p)
        match call_ollama_model (env.ollamaRaw p) true with
        | .error e => .error (e, st)
        | .ok validation =>
          if acceptIsTrue validation then
            match top.link with
            | some url =>
              if url ≠ "" then
                let db1 := (update_lead_in_db st.db lead_id "website" (some url)).2
                let db2 := (update_lead_in_db db1 lead_id "domain"
                  (some (netlocNoWww url))).2
                .ok ({ st with db := db2 }, 1)
              else .ok (st, 0)
            | Option.none => .ok (st, 0)
          else .ok (st, 0)

/-- `enrichment.py::find_missing_websites_for_leads`: returns
`updated_leads_count` and the final state. -/
def find_missing_websites_for_leads (env : Env) (db : DB) (lead_ids : List Nat) :
    Except (PyErr × WState) (Nat × WState) :=
  let rec go (st : WState) (updated : Nat) :
      List Nat → Except (PyErr × WState) (Nat × WState)
    | [] => .ok (updated, st)
    | i :: rest =>
      match fmwStep env st i with
      | .error e => .error e
      | .ok (st', inc) => go st' (updated + inc) rest
  go { db := db } 0 lead_ids

/-! ### `find_missing_websites_with_selenium` (browser search, strict verdict) -/

/-- The `for result in search_results` loop of
`find_missing_websites_with_selenium`: validate candidates in order, commit
the first strict acceptance that has a truthy link.  Returns
`(state, found_url, count increment)`. -/
def fmwsResults (env : Env) (lead : Lead) (lead_id : Nat) (st : WState) :
    List SearchResult → Except (PyErr × WState) (WState × Option String × Nat)
  | [] => .ok (st, Option.none, 0)
  | r :: rest =>
    let p := Prompt.websiteValidation lead r
    let st := st.addLog (.ollama p)
    match call_ollama_model (env.ollamaRaw p) true with
    | .error e => .error (e, st)
    | .ok validation =>
      if acceptIsTrue validation then
        match r.link with
        | some url =>
          if url ≠ "" then
            let db1 := (update_lead_in_db st.db lead_id "website" (some url)).2
            let db2 := (update_lead_in_db db1 lead_id "domain"
              (some (netlocNoWww url))).2
            .ok ({ st with db := db2 }, some url, 1)
          else fmwsResults env lead lead_id st rest
        | Option.none => fmwsResults env lead lead_id st rest
      else fmwsResults env lead lead_id st rest

/-- The `for query in search_queries` loop of
`find_missing_websites_with_selenium` (`if found_url: break` at the top). -/
def fmwsQueries (env : Env) (lead : Lead) (lead_id : Nat) :
    List String → WState → Option String → Nat →
    Except (PyErr × WState) (WState × Option String × Nat)
  | [], st, found, inc => .ok (st, found, inc)
  | q :: qs, st, found, inc =>
    if truthy found then .ok (st, found, inc)
    else
      let st := st.addLog (.browserSearch q 5)
      match env.browserSearch q 5 with
      | [] => fmwsQueries env lead lead_id qs st found inc
      | results =>
        match fmwsResults env lead lead_id st results with
        | .error e => .error e
        | .ok (st', found', inc') =>
          fmwsQueries env lead lead_id qs st' found' (inc + inc')

/-- One iteration of the outer loop of `find_missing_websites_with_selenium`. -/
def fmwsStep (env : Env) (st : WState) (lead_id : Nat) :
    Except (PyErr × WState) (WState × Nat) :=
  match get_lead_by_id st.db lead_id with
  | Option.none => .ok (st, 0)
  | some lead =>
    if truthy lead.website then .ok (st, 0)
    else
      match fmwsQueries env lead lead_id
          [seleniumQuery1 lead, seleniumQuery2 lead] st Option.none 0 with
      | .error e => .error e
      | .ok (st', _, inc) => .ok (st', inc)

/-- `enrichment.py::find_missing_websites_with_selenium`. -/
def find_missing_websites_with_selenium (env : Env) (db : DB)
    (lead_ids : List Nat) : Except (PyErr × WState) (Nat × WState) :=
  let rec go (st : WState) (updated : Nat) :
      List Nat → Except (PyErr × WState) (Nat × WState)
    | [] => .ok (updated, st)
    | i :: rest =>
      match fmwsStep env st i with
      | .error e => .error e
      | .ok (st', inc) => go st' (updated + inc) rest
  go { db := db } 0 lead_ids

/-! ### Contact extraction commit loop (shared by the find-and-fill workflows)

`for field in ["phone", "email", "address"]: if not lead.get(field) and
extracted.get(field): update_lead_in_db(...)`.  The emptiness guard reads the
lead dict fetched at the start of the contact step, not the store. -/

def commitStep (lead_id : Nat) (current : Lead) (kvs : List (String × PyObj))
    (acc : DB × Bool) (f : String) : DB × Bool :=
  let v := (dictGet kvs f).getD .none
  if ¬ truthy (current.getCol f) ∧ pyTruthy v then
    ((update_lead_in_db acc.1 lead_id f (pyToStored v)).2, true)
  else acc

def commitContactFields (db0 : DB) (lead_id : Nat) (current : Lead)
    (kvs : List (String × PyObj)) (upd0 : Bool) : DB × Bool :=
  ["phone", "email", "address"].foldl (commitStep lead_id current kvs) (db0, upd0)

/-! ### `find_and_fill_with_selenium` -/

/-- The inner `for result in search_results` loop of the website step of
`find_and_fill_with_selenium`: the first truthy verdict commits
`result.get('link')` (with no `None` check; `urlparse(None)` raises
`TypeError`, swallowed by the bare `except`) and breaks.  `some found` means
a candidate was accepted with that link. -/
def ffResults (env : Env) (lead : Lead) (lead_id : Nat) (st : WState) :
    List SearchResult → Except (PyErr × WState) (WState × Option (Option String))
  | [] => .ok (st, Option.none)
  | r :: rest =>
    let p := Prompt.websiteValidation lead r
    let st := st.addLog (.ollama p)
    match call_ollama_model (env.ollamaRaw p) true with
    | .error e => .error (e, st)
    | .ok validation =>
      if acceptTruthy validation then
        let found := r.link
        let db1 := (update_lead_in_db st.db lead_id "website" found).2
        let db2 :=
          match found with
          | some url => (update_lead_in_db db1 lead_id "domain"
              (some (netlocNoWww url))).2
          | Option.none => db1
        .ok ({ st with db := db2 }, some found)
      else ffResults env lead lead_id st rest

/-- The `for query in search_queries` loop of the website step of
`find_and_fill_with_selenium` (`if website_url: break` at the top of each
iteration); threads `(website_url, is_lead_updated)`. -/
def ffQueries (env : Env) (lead : Lead) (lead_id : Nat) :
    List String → WState → Option String → Bool →
    Except (PyErr × WState) (WState × Option String × Bool)
  | [], st, w, upd => .ok (st, w, upd)
  | q :: qs, st, w, upd =>
    if truthy w then .ok (st, w, upd)
    else
      let st := st.addLog (.browserSearch q 3)
      match ffResults env lead lead_id st (env.browserSearch q 3) with
      | .error e => .error e
      | .ok (st', res) =>
        match res with
        | some found => ffQueries env lead lead_id qs st' found true
        | Option.none => ffQueries env lead lead_id qs st' w upd

/-- The contact-information step of `find_and_fill_with_selenium` (guarded by
`if website_url:` in the caller).  Re-fetches the lead (`.get` on a `None`
re-fetch would raise `AttributeError`), skips unless one of phone/email/
address is falsy, and only reaches extraction when navigation succeeds and
the page text is non-empty. -/
def ffContact (env : Env) (st : WState) (lead_id : Nat) (website_url : String)
    (upd : Bool) : Except (PyErr × WState) (WState × Bool) :=
  match get_lead_by_id st.db lead_id with
  | Option.none => .error (.attributeError, st)
  | some current =>
    if ¬ (truthy current.phone ∧ truthy current.email ∧ truthy current.address) then
      let st := st.addLog (.navigate website_url)
      if env.navigate website_url then
        let st := st.addLog .clickLink
        let text := env.pageText website_url
        if text ≠ "" then
          let p := Prompt.contactExtraction text
          let st := st.addLog (.ollama p)
          match call_ollama_model (env.ollamaRaw p) true with
          | .error e => .error (e, st)
          | .ok extracted =>
            match extracted with
            | .dict kvs =>
              let r := commitContactFields st.db lead_id current kvs upd
              .ok ({ st with db := r.1 }, r.2)
            | _ => .ok (st, upd)
        else .ok (st, upd)
      else .ok (st, upd)
    else .ok (st, upd)

/-- One iteration of the `for lead_id in lead_ids` loop of
`find_and_fill_with_selenium`; the returned `Nat` is the increment to
`updated_leads_count`. -/
def ffStep (env : Env) (st : WState) (lead_id : Nat) :
    Except (PyErr × WState) (WState × Nat) :=
  match get_lead_by_id st.db lead_id with
  | Option.none => .ok (st, 0)
  | some lead =>
    let w0 := lead.website
    let step1 : Except (PyErr × WState) (WState × Option String × Bool) :=
      if ¬ truthy w0 then
        ffQueries env lead lead_id [seleniumQuery1 lead, seleniumQuery2 lead]
          st w0 false
      else .ok (st, w0, false)
    match step1 with
    | .error e => .error e
    | .ok (st1, w1, upd1) =>
      if truthy w1 then
        match ffContact env st1 lead_id (w1.getD "") upd1 with
        | .error e => .error e
        | .ok (st2, upd2) => .ok (st2, if upd2 then 1 else 0)
      else .ok (st1, if upd1 then 1 else 0)

/-- `enrichment.py::find_and_fill_with_selenium`: per-record exceptions are
not caught inside the loop, so they abort the whole batch.  On success
returns `(updated_leads_count, len(lead_ids) - updated_leads_count)` and the
final state. -/
def find_and_fill_with_selenium (env : Env) (db : DB) (lead_ids : List Nat) :
    Except (PyErr × WState) (Nat × Nat × WState) :=
  let rec go (st : WState) (updated : Nat) :
      List Nat → Except (PyErr × WState) (Nat × Nat × WState)
    | [] => .ok (updated, lead_ids.length - updated, st)
    | i :: rest =>
      match ffStep env st i with
      | .error e => .error e
      | .ok (st', inc) => go st' (updated + inc) rest
  go { db := db } 0 lead_ids

/-! ### `fill_missing_data_for_leads` (Google API variant) -/

/-- One iteration of the loop of `fill_missing_data_for_leads`: website step
on the single top CSE result with the truthiness verdict, then the contact
step (navigation success is ignored here). -/
def fillStep (env : Env) (st : WState) (lead_id : Nat) :
    Except (PyErr × WState) (WState × Nat) :=
  match get_lead_by_id st.db lead_id with
  | Option.none => .ok (st, 0)
  | some lead =>
    let w0 := lead.website
    let step1 : Except (PyErr × WState) (WState × Option String × Bool) :=
      if ¬ truthy w0 then
        let q := gcseQuery lead
        let st := st.addLog (.gcse q)
        match env.gcse q with
        | [] => .ok (st, w0, false)
        | top :: _ =>
          let p := Prompt.websiteValidation lead top
          let st := st.addLog (.ollama p)
          match call_ollama_model (env.ollamaRaw p) true with
          | .error e => .error (e, st)
          | .ok validation =>
            if acceptTruthy validation then
              let found := top.link
              let db1 := (update_lead_in_db st.db lead_id "website" found).2
              let db2 :=
                match found with
                | some url => (update_lead_in_db db1 lead_id "domain"
                    (some (netlocNoWww url))).2
                | Option.none => db1
              .ok ({ st with db := db2 }, found, true)
            else .ok (st, w0, false)
      else .ok (st, w0, false)
    match step1 with
    | .error e => .error e
    | .ok (st1, w1, upd1) =>
      if truthy w1 then
        match get_lead_by_id st1.db lead_id with
        | Option.none => .error (.attributeError, st1)
        | some current =>
          if ¬ (truthy current.phone ∧ truthy current.email ∧
                truthy current.address) then
            let st2 := (st1.addLog (.navigate (w1.getD ""))).addLog .clickLink
            let text := env.pageText (w1.getD "")
            if text ≠ "" then
              let p := Prompt.contactExtraction text
              let st3 := st2.addLog (.ollama p)
              match call_ollama_model (env.ollamaRaw p) true with
              | .error e => .error (e, st3)
              | .ok extracted =>
                match extracted with
                | .dict kvs =>
                  let r := commitContactFields st3.db lead_id current kvs upd1
                  .ok ({ st3 with db := r.1 }, if r.2 then 1 else 0)
                | _ => .ok (st3, if upd1 then 1 else 0)
            else .ok (st2, if upd1 then 1 else 0)
          else .ok (st1, if upd1 then 1 else 0)
      else .ok (st1, if upd1 then 1 else 0)

/-- `enrichment.py::fill_missing_data_for_leads`: returns only
`updated_leads_count` (no failure tally); per-record exceptions abort the
batch. -/
def fill_missing_data_for_leads (env : Env) (db : DB) (lead_ids : List Nat) :
    Except (PyErr × WState) (Nat × WState) :=
  let rec go (st : WState) (updated : Nat) :
      List Nat → Except (PyErr × WState) (Nat × WState)
    | [] => .ok (updated, st)
    | i :: rest =>
      match fillStep env st i with
      | .error e => .error e
      | .ok (st', inc) => go st' (updated + inc) rest
  go { db := db } 0 lead_ids

/-! ### `enrich_leads_with_ai_agent_batch` -/

/-- The per-record deep-analysis action `enrich_lead_with_ai_agent` as an
oracle: its browser/LLM/file internals are irrelevant to the batch loop's
failure isolation; an outcome is `(success, reason)` or a raised exception. -/
structure DeepEnv where
  step : Nat → Except PyErr (Bool × String)

/-- `enrichment.py::enrich_leads_with_ai_agent_batch`: the loop body is
wrapped in `try/except`, so a per-record exception increments
`failure_count` and the loop continues.  Also returns the list of records
whose processing was attempted. -/
def enrich_leads_with_ai_agent_batch (env : DeepEnv) (lead_ids : List Nat) :
    Nat × Nat × List Nat :=
  let rec go (succ fail : Nat) (processed : List Nat) :
      List Nat → Nat × Nat × List Nat
    | [] => (succ, fail, processed)
    | i :: rest =>
      match env.step i with
      | .ok (true, _) => go (succ + 1) fail (processed ++ [i]) rest
      | .ok (false, _) => go succ (fail + 1) (processed ++ [i]) rest
      | .error _ => go succ (fail + 1) (processed ++ [i]) rest
  go 0 0 [] lead_ids

/-! ### `core/categorization.py::build_smart_list` -/

/-- `ai_response.get(k)` converted to the TEXT sqlite stores. -/
def storeOptPy (kvs : List (String × PyObj)) (k : String) : Option String :=
  match dictGet kvs k with
  | some v => pyToStored v
  | Option.none => Option.none

/-- One iteration of the analysis loop of `build_smart_list`: ask the LLM,
and only on a verdict dict containing a `match` key that `is True` record
the membership.  A dict whose `match` key is present but not `True` is
neither recorded nor counted. -/
def smartStep (env : Env) (listName goal : String)
    (acc : Except (PyErr × DB × List Event) (DB × Nat × Nat × List Event))
    (lead : Lead) : Except (PyErr × DB × List Event) (DB × Nat × Nat × List Event) :=
  match acc with
  | .error e => .error e
  | .ok (db, succ, fail, log) =>
    let p := Prompt.smartCategorize lead goal listName
    let log := log ++ [Event.ollama p]
    match call_ollama_model (env.ollamaRaw p) true with
    | .error e => .error (e, db, log)
    | .ok v =>
      match v with
      | .dict kvs =>
        match dictGet kvs "match" with
        | some m =>
          match m with
          | .bool true =>
            let db' := add_lead_to_smart_list db listName lead.id
              (storeOptPy kvs "category") (storeOptPy kvs "justification")
            .ok (db', succ + 1, fail, log)
          | _ => .ok (db, succ, fail, log)
        | Option.none => .ok (db, succ, fail + 1, log)
      | _ => .ok (db, succ, fail + 1, log)

/-- `categorization.py::build_smart_list`.  The candidate pool produced by
`load_db_paginated` with the caller's filters is passed in as `pool` (the
claims quantify over an *unchanged* pool between runs); leads already in the
list's `smart_lists` rows are filtered out, the remainder truncated to
`max_leads_to_analyze`, then analyzed one by one. -/
def build_smart_list (env : Env) (db : DB) (listName goal : String)
    (pool : List Lead) (maxN : Nat) :
    Except (PyErr × DB × List Event) (DB × Nat × Nat × List Event) :=
  let analyzed := get_analyzed_lead_ids_for_list db listName
  let toProcess := (pool.filter (fun l => ¬ l.id ∈ analyzed)).take maxN
  toProcess.foldl (smartStep env listName goal) (.ok (db, 0, 0, []))

/-! ## Basic lemmas about the store operations -/

theorem setCol_id (r : Lead) (f : String) (v : Option String) :
    (r.setCol f v).id = r.id := by
  rw [Lead.setCol]
  rcases eq_or_ne f "name" with h | h
  · rw [if_pos h]
  rw [if_neg h]
  rcases eq_or_ne f "title" with h | h
  · rw [if_pos h]
  rw [if_neg h]
  rcases eq_or_ne f "linkedin" with h | h
  · rw [if_pos h]
  rw [if_neg h]
  rcases eq_or_ne f "website" with h | h
  · rw [if_pos h]
  rw [if_neg h]
  rcases eq_or_ne f "phone" with h | h
  · rw [if_pos h]
  rw [if_neg h]
  rcases eq_or_ne f "email" with h | h
  · rw [if_pos h]
  rw [if_neg h]
  rcases eq_or_ne f "domain" with h | h
  · rw [if_pos h]
  rw [if_neg h]
  rcases eq_or_ne f "address" with h | h
  · rw [if_pos h]
  rw [if_neg h]
  rcases eq_or_ne f "record_type" with h | h
  · rw [if_pos h]
  rw [if_neg h]
  rcases eq_or_ne f "source" with h | h
  · rw [if_pos h]
  rw [if_neg h]
  rcases eq_or_ne f "business_type" with h | h
  · rw [if_pos h]
  rw [if_neg h]

theorem update_db_rows (db : DB) (i : Nat) (f : String) (v : Option String) :
    (update_lead_in_db db i f v).2 = db ∨
    (update_lead_in_db db i f v).2 =
      { db with rows := db.rows.map (fun x => if x.id == i then x.setCol f v else x) } := by
  unfold update_lead_in_db
  split_ifs <;> try exact Or.inl rfl
  all_goals
    cases hf : db.rows.find? (fun r => r.id == i) <;> simp [hf]
  all_goals split_ifs <;> simp

theorem leadAt_map_setCol (db : DB) (i : Nat) (f : String) (v : Option String) :
    get_lead_by_id
      { db with rows := db.rows.map (fun x => if x.id == i then x.setCol f v else x) } i
      = (get_lead_by_id db i).map (fun r => r.setCol f v) := by
  unfold get_lead_by_id
  simp only
  rw [List.find?_map]
  have hp : ((fun r : Lead => r.id == i) ∘ fun x => if x.id == i then x.setCol f v else x)
      = fun r : Lead => r.id == i := by
    funext x
    by_cases hx : x.id = i <;> simp [hx, setCol_id]
  rw [hp]
  cases hf : db.rows.find? (fun r : Lead => r.id == i) with
  | none => rfl
  | some r =>
    have hr := List.find?_some hf
    simp only [Option.map_some']
    simp [hr]

/-- Reading lead `j` through any single-column update: the value of any
column `g` that the written row update does not change is preserved. -/
theorem leadAt_update (db : DB) (i : Nat) (f : String) (v : Option String) (j : Nat) :
    get_lead_by_id (update_lead_in_db db i f v).2 j = get_lead_by_id db j ∨
    get_lead_by_id (update_lead_in_db db i f v).2 j
      = (get_lead_by_id db j).map (fun r => r.setCol f v) := by
  rcases update_db_rows db i f v with h | h
  · exact Or.inl (by rw [h])
  · rw [h]
    by_cases hij : j = i
    · subst hij; exact Or.inr (leadAt_map_setCol db j f v)
    · left
      unfold get_lead_by_id
      simp only
      rw [List.find?_map]
      have hp : ((fun r : Lead => r.id == j) ∘ fun x => if x.id == i then x.setCol f v else x)
          = fun r : Lead => r.id == j := by
        funext x
        by_cases hx : x.id = i <;> simp [hx, setCol_id]
      rw [hp]
      cases hf : db.rows.find? (fun r : Lead => r.id == j) with
      | none => rfl
      | some r =>
        have hr := List.find?_some hf
        have hri : r.id = j := by simpa using hr
        simp [hri, hij]

/-! ## Claim C8: allow-listed single-field update -/

/-- **C8**: `update_lead_in_db` rejects every column outside its explicit
allow-list, returning `false` and leaving the store unchanged; whenever it
returns `false` the store is unchanged; whenever it returns `true` a row
with the given id exists and exactly that row's column was rewritten; and
for an allowed column with no matching row it returns `false` with the
store unchanged. -/
theorem C8_update_field_allowlist (db : DB) (lead_id : Nat) (col : String)
    (v : Option String) :
    (col ∉ allowed_cols → update_lead_in_db db lead_id col v = (false, db)) ∧
    ((update_lead_in_db db lead_id col v).1 = false →
      (update_lead_in_db db lead_id col v).2 = db) ∧
    ((update_lead_in_db db lead_id col v).1 = true →
      (∃ r ∈ db.rows, r.id = lead_id) ∧
      (update_lead_in_db db lead_id col v).2 =
        { db with rows := db.rows.map fun x => if x.id == lead_id then x.setCol col v else x }) ∧
    (col ∈ allowed_cols → (∀ r ∈ db.rows, r.id ≠ lead_id) →
      update_lead_in_db db lead_id col v = (false, db)) := by
  by_cases hc : col ∈ allowed_cols
  · refine ⟨fun h => absurd hc h, ?_, ?_, ?_⟩
    · intro hfalse
      unfold update_lead_in_db at hfalse ⊢
      simp only [hc, not_true_eq_false, if_false] at hfalse ⊢
      cases hf : db.rows.find? (fun r => r.id == lead_id) with
      | none => simp [hf]
      | some r =>
        simp only [hf] at hfalse ⊢
        split_ifs at hfalse ⊢ <;> simp_all
    · intro htrue
      unfold update_lead_in_db at htrue ⊢
      simp only [hc, not_true_eq_false, if_false] at htrue ⊢
      cases hf : db.rows.find? (fun r => r.id == lead_id) with
      | none => simp [hf] at htrue
      | some r =>
        simp only [hf] at htrue ⊢
        have hrmem : r ∈ db.rows := List.mem_of_find?_eq_some hf
        have hrid : r.id = lead_id := by simpa using List.find?_some hf
        split_ifs at htrue ⊢ <;> simp_all
        exact ⟨r, hrmem, hrid⟩
    · intro _ hnone
      have hf : db.rows.find? (fun r => r.id == lead_id) = Option.none := by
        apply List.find?_eq_none.mpr
        intro r hr
        simpa using hnone r hr
      unfold update_lead_in_db
      simp [hc, hf]
  · refine ⟨?_, ?_, ?_, fun h => absurd h hc⟩
    · intro _
      unfold update_lead_in_db
      simp [hc]
    · intro _
      unfold update_lead_in_db
      simp [hc]
    · intro htrue
      unfold update_lead_in_db at htrue
      simp [hc] at htrue

/-- Witness store for closed instantiations. -/
def dbW : DB := { rows := [{ id := 3, name := "Acme", phone := some "555" }], nextId := 4 }

/-- Witness for C8: the column `"evil"` is rejected and leaves the store
unchanged. -/
theorem C8_witness :
    "evil" ∉ allowed_cols ∧ update_lead_in_db dbW 3 "evil" (some "z") = (false, dbW) :=
  ⟨by decide, (C8_update_field_allowlist dbW 3 "evil" (some "z")).1 (by decide)⟩

/-! ## Claim C10: the non-empty-name invariant of the insert path -/

theorem upsertStep_rows_cases (st : UpsertState) (h : Hit) :
    (upsertStep st h).rows = st.rows ∨
    ((upsertStep st h).rows = st.rows ++ [mkLead st.nextId h] ∧ pyNorm h.name ≠ "") := by
  simp only [upsertStep]
  split
  · exact Or.inl rfl
  next h1 =>
    split
    · exact Or.inl rfl
    · split
      · exact Or.inl rfl
      · exact Or.inr ⟨rfl, h1⟩

theorem upsert_fold_names (hits : List Hit) (st : UpsertState)
    (hinv : ∀ r ∈ st.rows, r.name ≠ "") :
    ∀ r ∈ (hits.foldl upsertStep st).rows, r.name ≠ "" := by
  induction hits generalizing st with
  | nil => simpa using hinv
  | cons h rest ih =>
    intro r hr
    refine ih (upsertStep st h) ?_ r hr
    intro r' hr'
    rcases upsertStep_rows_cases st h with hc | ⟨hc, hn⟩
    · exact hinv r' (hc ▸ hr')
    · rw [hc] at hr'
      rcases List.mem_append.mp hr' with hold | hnew
      · exact hinv r' hold
      · have : r' = mkLead st.nextId h := by simpa using hnew
        subst this
        intro hempty
        exact hn (by simp [mkLead] at hempty; simp [hempty, pyNorm, pyTrim, pyLower])

/-- **C10**: the batch insert path preserves the non-empty-name invariant of
the store: from any store whose rows all have non-empty names, `upsert_leads`
produces such a store for any input batch; and a candidate whose name trims
to the empty string produces no row and is counted as skipped. -/
theorem C10_nonempty_name_invariant (db : DB) (hits : List Hit)
    (hinv : ∀ r ∈ db.rows, r.name ≠ "") :
    (∀ r ∈ (upsert_leads db hits).1.rows, r.name ≠ "") ∧
    (∀ h : Hit, pyNorm h.name = "" → upsert_leads db [h] = (db, 0, 1)) := by
  constructor
  · intro r hr
    unfold upsert_leads at hr
    split_ifs at hr with hempty
    · exact hinv r hr
    · exact upsert_fold_names hits _ hinv r hr
  · intro h hname
    unfold upsert_leads
    simp only [List.isEmpty_cons, if_false, List.foldl_cons, List.foldl_nil]
    unfold upsertStep
    simp [hname]

/-- Witness for C10: a whitespace-only name is skipped and inserts nothing. -/
theorem C10_witness :
    upsert_leads dbW [{ name := "  " }] = (dbW, 0, 1) :=
  (C10_nonempty_name_invariant dbW [{ name := "  " }] (by decide)).2 _ (by decide)

/-! ## Claim C9: unparseable structured LLM output is distinguishable -/

/-- **C9**: when `call_ollama_model` is called with `expect_json = True` and
the model's `response` content is not valid JSON, the caller receives the raw
content string — a value that is never a dict, so it is distinguishable from
every successfully parsed structured verdict, and every structured-verdict
acceptance predicate in the repository rejects it. -/
theorem C9_not_structured_signal (raw s : String) (kvs : List (String × PyObj))
    (h1 : json_loads raw = some (.dict kvs))
    (h2 : (dictGet kvs "response").getD (.str "") = .str s)
    (h3 : json_loads (pyTrim s) = Option.none) :
    call_ollama_model (some raw) true = .ok (.str (pyTrim s)) ∧
    (∀ kvs' : List (String × PyObj), PyObj.str (pyTrim s) ≠ .dict kvs') ∧
    acceptTruthy (.str (pyTrim s)) = false ∧
    acceptIsTrue (.str (pyTrim s)) = false := by
  refine ⟨?_, ?_, rfl, rfl⟩
  · simp only [call_ollama_model, h1, h2, h3]
    simp
  · intro kvs' hcontra
    cases hcontra

/-- Witness for C9: the content `yes` is not valid JSON, and the call returns
it as a raw string. -/
theorem C9_witness :
    json_loads "\x7b\"response\": \"yes\"\x7d" = some (.dict [("response", .str "yes")]) ∧
    json_loads (pyTrim "yes") = Option.none ∧
    call_ollama_model (some "\x7b\"response\": \"yes\"\x7d") true = .ok (.str (pyTrim "yes")) :=
  ⟨rfl, rfl,
    (C9_not_structured_signal "\x7b\"response\": \"yes\"\x7d" "yes"
      [("response", .str "yes")] rfl rfl rfl).1⟩

/-! ## Normalized identity keys (claim C1) -/

/-- The normalized dedup identity of a stored row: trimmed case-folded name
paired with the trimmed case-folded domain (`""` for `NULL` or empty). -/
def leadKey (r : Lead) : String × String :=
  (pyNorm r.name, pyNorm (r.domain.getD ""))

/-- The normalized dedup identity of a candidate hit. -/
def hitKey (h : Hit) : String × String :=
  (pyNorm h.name, pyNorm (h.domain.getD ""))

/-- Number of rows whose normalized `(name, domain)` pair matches the
candidate's. -/
def matchCount (rows : List Lead) (h : Hit) : Nat :=
  (rows.filter (fun r => leadKey r == hitKey h)).length

/-! ## Concrete fixtures for counterexamples and witnesses -/

/-- A candidate whose raw domain is whitespace-only. -/
def wsDomainHit : Hit := { name := "x", domain := some " " }

/-- The same candidate with the surrounding whitespace of the domain removed. -/
def emptyDomainHit : Hit := { name := "x", domain := some "" }

def leadAcme : Lead := { id := 1, name := "Acme" }

def leadBeta : Lead := { id := 2, name := "Beta" }

def resAcme : SearchResult := { link := some "http://www.acme.com/home" }

/-- Ollama envelope whose content decodes to
`{"is_correct_website": "yes"}` — a structured verdict that is truthy but
not `True`. -/
def rawVerdictYes : String :=
  "\x7b\"response\": \"\x7b\\\"is_correct_website\\\": \\\"yes\\\"\x7d\"\x7d"

/-- Ollama envelope whose content decodes to `{"is_correct_website": false}`. -/
def rawVerdictNo : String :=
  "\x7b\"response\": \"\x7b\\\"is_correct_website\\\": false\x7d\"\x7d"

/-- Ollama envelope whose content decodes to `{"match": false}`. -/
def rawMatchFalse : String :=
  "\x7b\"response\": \"\x7b\\\"match\\\": false\x7d\"\x7d"

def dbOne : DB := { rows := [leadAcme], nextId := 2 }

def dbTwo : DB := { rows := [leadAcme, leadBeta], nextId := 3 }

/-- Environment whose LLM always answers the truthy-but-not-`True` verdict. -/
def envYes : Env :=
  { gcse := fun _ => [resAcme], browserSearch := fun _ _ => [resAcme],
    ollamaRaw := fun _ => some rawVerdictYes,
    navigate := fun _ => false, pageText := fun _ => "" }

/-- Environment whose LLM always rejects. -/
def envNo : Env := { envYes with ollamaRaw := fun _ => some rawVerdictNo }

/-- Environment whose Ollama endpoint returns a valid-JSON non-dict envelope,
on which `call_ollama_model` raises an uncaught `AttributeError`. -/
def envCrash : Env := { envYes with ollamaRaw := fun _ => some "[0]" }

/-- Environment whose LLM always answers `{"match": false}`. -/
def envMatchFalse : Env := { envYes with ollamaRaw := fun _ => some rawMatchFalse }

/-! ## Claim C1 (counterexample): whitespace-only domains break idempotence -/

/-- **C4, counterexample**: in `find_and_fill_with_selenium`, an LLM response
that parses to the structured verdict `{"is_correct_website": "yes"}` — a
dict whose `is_correct_website` key is NOT `true` — passes the truthiness
check `validation.get("is_correct_website")`, and the website and derived
domain ARE written to the store for that candidate (the claim says no update
may be written).  The strict `is True` gate of
`find_missing_websites_for_leads` rejects the same verdict. -/
theorem C4_counterexample :
    call_ollama_model (envYes.ollamaRaw (.websiteValidation leadAcme resAcme)) true
      = .ok (.dict [("is_correct_website", .str "yes")]) ∧
    acceptIsTrue (.dict [("is_correct_website", .str "yes")]) = false ∧
    acceptTruthy (.dict [("is_correct_website", .str "yes")]) = true ∧
    (get_lead_by_id dbOne 1).map Lead.website = some Option.none ∧
    ((find_and_fill_with_selenium envYes dbOne [1]).toOption.map
        (fun r => (get_lead_by_id r.2.2.db 1).map (fun l => (l.website, l.domain))))
      = some (some (some "http://www.acme.com/home", some "acme.com")) ∧
    ((find_missing_websites_for_leads envYes dbOne [1]).toOption.map
        (fun r => (r.1, (get_lead_by_id r.2.db 1).map Lead.website)))
      = some (0, some Option.none) :=
  ⟨rfl, rfl, rfl, rfl, rfl, rfl⟩

/-! ## Claim C5 (counterexample): find-and-fill does not isolate per-record
failures -/

/-- **C5, counterexample**: in a two-record `find_and_fill_with_selenium`
batch where processing of the first record raises (an `AttributeError`
escaping `call_ollama_model` on a valid-JSON non-dict envelope), the
exception propagates out of the batch loop: the call returns the raised
error instead of counts, and the event log shows the second record was never
processed. -/
theorem C5_counterexample :
    find_and_fill_with_selenium envCrash dbTwo [1, 2] =
      .error (.attributeError,
        { db := dbTwo,
          log := [.browserSearch (seleniumQuery1 leadAcme) 3,
                  .ollama (.websiteValidation leadAcme resAcme)] }) := rfl

/-! ## Claim C7 (counterexample): a no-accept record lands in the returned
failure slot -/

/-- **C7, counterexample**: a single lead missing website, phone and email
whose website resolution accepts no candidate across both query variants is
skipped by the contact step (no navigation, no extraction call is logged),
but `find_and_fill_with_selenium` returns `(0, 1)`: the record is counted in
the second returned component — the slot the callers render as "Failed"
(`action_dispatcher.py` prints it as `Failed/No Data`), contradicting "not
counted in the returned failure count". -/
theorem C7_counterexample :
    find_and_fill_with_selenium envNo dbOne [1] =
      .ok (0, 1,
        { db := dbOne,
          log := [.browserSearch (seleniumQuery1 leadAcme) 3,
                  .ollama (.websiteValidation leadAcme resAcme),
                  .browserSearch (seleniumQuery2 leadAcme) 3,
                  .ollama (.websiteValidation leadAcme resAcme)] }) := rfl

/-! ## Claim C6 (code bug): rejected candidates are re-analyzed on rebuild -/

/-- **C6**: `build_smart_list` records nothing for a lead the LLM evaluated
and rejected (`{"match": false}` increments neither counter and writes no
`smart_lists` row), so rebuilding the list over the unchanged pool performs
the same LLM categorization call again for that lead — the spec requires
zero additional calls for already-evaluated leads, rejected ones included.
The first run returns the store unchanged with exactly one LLM call; the
rebuild performs the identical call once more. -/
theorem C6_rejected_lead_reanalyzed :
    build_smart_list envMatchFalse dbOne "L" "goal" [leadAcme] 100
      = .ok (dbOne, 0, 0, [.ollama (.smartCategorize leadAcme "goal" "L")]) ∧
    (match build_smart_list envMatchFalse dbOne "L" "goal" [leadAcme] 100 with
     | .ok (db', _, _, _) =>
       (match build_smart_list envMatchFalse db' "L" "goal" [leadAcme] 100 with
        | .ok (_, _, _, log2) => log2
        | .error _ => [])
     | .error _ => [])
      = [.ollama (.smartCategorize leadAcme "goal" "L")] :=
  ⟨rfl, rfl⟩

/-! ## Claim C2: the duplicate sweep -/

theorem minNat?_cons (a : Nat) (l : List Nat) :
    minNat? (a :: l) =
      some (match minNat? l with
            | Option.none => a
            | some m => Nat.min a m) := by
  unfold minNat?
  rw [List.foldr_cons]
  cases (l.foldr (fun n acc =>
    match acc with
    | Option.none => some n
    | some m => some (Nat.min n m)) Option.none) <;> rfl

theorem minNat?_eq_none_iff (l : List Nat) : minNat? l = Option.none ↔ l = [] := by
  cases l with
  | nil => simp [minNat?]
  | cons a t => rw [minNat?_cons]; simp

theorem minNat?_mem : ∀ {l : List Nat} {m : Nat}, minNat? l = some m → m ∈ l := by
  intro l
  induction l with
  | nil => intro m h; simp [minNat?] at h
  | cons a t ih =>
    intro m h
    rw [minNat?_cons] at h
    have hm := Option.some.inj h
    cases ht : minNat? t with
    | none =>
      rw [ht] at hm
      have hm' : a = m := hm
      exact hm' ▸ List.mem_cons_self a t
    | some m' =>
      rw [ht] at hm
      have hm' : min a m' = m := hm
      rcases min_cases a m' with ⟨h1, _⟩ | ⟨h1, _⟩ <;> rw [h1] at hm'
      · exact hm' ▸ List.mem_cons_self a t
      · exact List.mem_cons_of_mem a (hm' ▸ ih ht)

theorem minNat?_le : ∀ {l : List Nat} {m : Nat}, minNat? l = some m → ∀ x ∈ l, m ≤ x := by
  intro l
  induction l with
  | nil => intro m _ x hx; cases hx
  | cons a t ih =>
    intro m h x hx
    rw [minNat?_cons] at h
    have hm := Option.some.inj h
    cases ht : minNat? t with
    | none =>
      have hte : t = [] := (minNat?_eq_none_iff t).mp ht
      subst hte
      rw [ht] at hm
      have hm' : a = m := hm
      rcases List.mem_cons.mp hx with hxa | hxt
      · rw [hxa]
        exact Nat.le_of_eq hm'.symm
      · cases hxt
    | some m' =>
      rw [ht] at hm
      have hm' : min a m' = m := hm
      rcases List.mem_cons.mp hx with hxa | hxt
      · rw [hxa]
        exact hm' ▸ min_le_left a m'
      · exact Nat.le_trans (hm' ▸ min_le_right a m') (ih ht x hxt)

theorem minNat?_eq_some_of (l : List Nat) (m : Nat) (hm : m ∈ l)
    (hle : ∀ x ∈ l, m ≤ x) : minNat? l = some m := by
  cases hmin : minNat? l with
  | none =>
    have : l = [] := (minNat?_eq_none_iff l).mp hmin
    subst this
    cases hm
  | some m' =>
    have h1 := minNat?_mem hmin
    have h2 : m' ≤ m := minNat?_le hmin m hm
    have h3 : m ≤ m' := hle m' h1
    rw [Nat.le_antisymm h2 h3]

theorem lead_id_inj {rows : List Lead} (hids : (rows.map Lead.id).Nodup) :
    ∀ r ∈ rows, ∀ r' ∈ rows, r.id = r'.id → r = r' := by
  intro r hr r' hr' h
  exact List.inj_on_of_nodup_map hids hr hr' h

/-- The id multiset of one phase-1 group. -/
def p1groupIds (rows : List Lead) (k : String × String) : List Nat :=
  rows.filterMap (fun r =>
    if domainful r ∧ p1key r = k then some r.id else Option.none)

theorem p1min_eq (rows : List Lead) (k : String × String) :
    p1min rows k = minNat? (p1groupIds rows k) := rfl

theorem mem_p1groupIds {rows : List Lead} {r : Lead} (hr : r ∈ rows)
    (hd : domainful r = true) : r.id ∈ p1groupIds rows (p1key r) :=
  List.mem_filterMap.mpr ⟨r, hr, by simp [hd]⟩

theorem p1groupIds_decode {rows : List Lead} {k : String × String} {n : Nat}
    (h : n ∈ p1groupIds rows k) :
    ∃ r ∈ rows, domainful r = true ∧ p1key r = k ∧ r.id = n := by
  obtain ⟨r, hr, hf⟩ := List.mem_filterMap.mp h
  by_cases hc : domainful r = true ∧ p1key r = k
  · rw [if_pos hc] at hf
    exact ⟨r, hr, hc.1, hc.2, by simpa using hf⟩
  · rw [if_neg hc] at hf
    cases hf

/-- Phase-1 survival: a domainful row's id is in the subquery id set iff the
row has the least id of its normalized `(name, domain)` group. -/
theorem p1_keep_iff {rows : List Lead} (hids : (rows.map Lead.id).Nodup)
    {r : Lead} (hr : r ∈ rows) (hd : domainful r = true) :
    r.id ∈ p1minSet rows ↔
      (∀ r' ∈ rows, domainful r' = true → p1key r' = p1key r → r.id ≤ r'.id) := by
  constructor
  · intro hmem
    obtain ⟨r2, hr2, hf⟩ := List.mem_filterMap.mp hmem
    by_cases hd2 : domainful r2 = true
    · rw [if_pos hd2] at hf
      have hmin := @minNat?_mem (p1groupIds rows (p1key r2)) _ hf
      obtain ⟨rr, hrr, hdrr, hkrr, hirr⟩ := p1groupIds_decode hmin
      have : rr = r := lead_id_inj hids rr hrr r hr hirr
      subst this
      intro r' hr' hd' hk'
      have hmem' : r'.id ∈ p1groupIds rows (p1key r2) := by
        have h0 := mem_p1groupIds hr' hd'
        rw [hk', hkrr] at h0
        exact h0
      exact minNat?_le hf r'.id hmem'
    · rw [if_neg hd2] at hf
      cases hf
  · intro hall
    have hself : r.id ∈ p1groupIds rows (p1key r) := mem_p1groupIds hr hd
    have hle : ∀ x ∈ p1groupIds rows (p1key r), r.id ≤ x := by
      intro x hx
      obtain ⟨r', hr', hd', hk', hi'⟩ := p1groupIds_decode hx
      exact hi' ▸ hall r' hr' hd' hk'
    have hmin : p1min rows (p1key r) = some r.id :=
      minNat?_eq_some_of _ _ hself hle
    exact List.mem_filterMap.mpr ⟨r, hr, by simp [hd, hmin]⟩

/-- The id multiset of one phase-2 group. -/
def p2groupIds (rows : List Lead) (k : String) : List Nat :=
  rows.filterMap (fun r =>
    if domainless r ∧ p2key r = k then some r.id else Option.none)

theorem mem_p2groupIds {rows : List Lead} {r : Lead} (hr : r ∈ rows)
    (hd : domainless r = true) : r.id ∈ p2groupIds rows (p2key r) :=
  List.mem_filterMap.mpr ⟨r, hr, by simp [hd]⟩

theorem p2groupIds_decode {rows : List Lead} {k : String} {n : Nat}
    (h : n ∈ p2groupIds rows k) :
    ∃ r ∈ rows, domainless r = true ∧ p2key r = k ∧ r.id = n := by
  obtain ⟨r, hr, hf⟩ := List.mem_filterMap.mp h
  by_cases hc : domainless r = true ∧ p2key r = k
  · rw [if_pos hc] at hf
    exact ⟨r, hr, hc.1, hc.2, by simpa using hf⟩
  · rw [if_neg hc] at hf
    cases hf

/-- Phase-2 survival over an arbitrary table state. -/
theorem p2_keep_iff {rows : List Lead} (hids : (rows.map Lead.id).Nodup)
    {r : Lead} (hr : r ∈ rows) (hd : domainless r = true) :
    r.id ∈ p2minSet rows ↔
      (∀ r' ∈ rows, domainless r' = true → p2key r' = p2key r → r.id ≤ r'.id) := by
  constructor
  · intro hmem
    obtain ⟨r2, hr2, hf⟩ := List.mem_filterMap.mp hmem
    by_cases hd2 : domainless r2 = true
    · rw [if_pos hd2] at hf
      have hmin := @minNat?_mem (p2groupIds rows (p2key r2)) _ hf
      obtain ⟨rr, hrr, hdrr, hkrr, hirr⟩ := p2groupIds_decode hmin
      have : rr = r := lead_id_inj hids rr hrr r hr hirr
      subst this
      intro r' hr' hd' hk'
      have hmem' : r'.id ∈ p2groupIds rows (p2key r2) := by
        have h0 := mem_p2groupIds hr' hd'
        rw [hk', hkrr] at h0
        exact h0
      exact minNat?_le hf r'.id hmem'
    · rw [if_neg hd2] at hf
      cases hf
  · intro hall
    have hself : r.id ∈ p2groupIds rows (p2key r) := mem_p2groupIds hr hd
    have hle : ∀ x ∈ p2groupIds rows (p2key r), r.id ≤ x := by
      intro x hx
      obtain ⟨r', hr', hd', hk', hi'⟩ := p2groupIds_decode hx
      exact hi' ▸ hall r' hr' hd' hk'
    have hmin : p2min rows (p2key r) = some r.id :=
      minNat?_eq_some_of _ _ hself hle
    exact List.mem_filterMap.mpr ⟨r, hr, by simp [hd, hmin]⟩

theorem domainful_of_not_domainless {r : Lead} (h : domainless r = true) :
    domainful r = false := by
  unfold domainful domainless at *
  cases hd : r.domain with
  | none => simp [hd]
  | some d =>
    rw [hd] at h
    simp only [Bool.and_eq_true, beq_iff_eq] at h
    simp [hd, h.1]

theorem filterMap_filter_eq {α β : Type} (l : List α) (q : α → Bool)
    (f : α → Option β) (h : ∀ x, (f x).isSome → q x = true) :
    (l.filter q).filterMap f = l.filterMap f := by
  induction l with
  | nil => rfl
  | cons a t ih =>
    by_cases hq : q a = true
    · rw [List.filter_cons_of_pos hq, List.filterMap_cons, List.filterMap_cons, ih]
    · rw [List.filter_cons_of_neg (by simpa using hq)]
      cases hfa : f a with
      | none => rw [List.filterMap_cons, hfa, ih]
      | some b =>
        exact absurd (h a (by simp [hfa])) hq

/-- **C2 (amended)**: after `remove_db_duplicates`, with groups keyed by the
sweep's own normalization `sqlNorm` (`LOWER(TRIM(..))`, where SQLite `TRIM`
strips only spaces): (i) a row with non-empty name and domain survives iff it
has the least id of its normalized `(name, domain)` group; (ii) a row with
non-empty name and empty/`NULL` domain survives iff it has the least id of
its normalized-name group among such rows; (iii) no two surviving rows share
a group (every group is collapsed to one row); and (iv) two rows with the
same name but different non-empty normalized domains are never collapsed:
whenever each is minimal in its own group, both survive. -/
theorem C2_merge_duplicates (rows : List Lead)
    (hids : (rows.map Lead.id).Nodup) :
    (∀ r ∈ rows, domainful r = true →
      (r ∈ (remove_db_duplicates rows).1 ↔
        ∀ r' ∈ rows, domainful r' = true → p1key r' = p1key r → r.id ≤ r'.id)) ∧
    (∀ r ∈ rows, domainless r = true →
      (r ∈ (remove_db_duplicates rows).1 ↔
        ∀ r' ∈ rows, domainless r' = true → p2key r' = p2key r → r.id ≤ r'.id)) ∧
    (∀ r1 ∈ (remove_db_duplicates rows).1, ∀ r2 ∈ (remove_db_duplicates rows).1,
      ((domainful r1 = true ∧ domainful r2 = true ∧ p1key r1 = p1key r2) ∨
       (domainless r1 = true ∧ domainless r2 = true ∧ p2key r1 = p2key r2)) →
      r1 = r2) ∧
    (∀ r1 ∈ rows, ∀ r2 ∈ rows, domainful r1 = true → domainful r2 = true →
      sqlNorm (r1.domain.getD "") ≠ sqlNorm (r2.domain.getD "") →
      (∀ r' ∈ rows, domainful r' = true → p1key r' = p1key r1 → r1.id ≤ r'.id) →
      (∀ r' ∈ rows, domainful r' = true → p1key r' = p1key r2 → r2.id ≤ r'.id) →
      r1 ∈ (remove_db_duplicates rows).1 ∧ r2 ∈ (remove_db_duplicates rows).1) := by
  classical
  set rows1 := rows.filter
    (fun r => ¬(domainful r = true ∧ ¬ r.id ∈ p1minSet rows)) with hrows1
  have hfinal : (remove_db_duplicates rows).1 =
      rows1.filter (fun r => ¬(domainless r = true ∧ ¬ r.id ∈ p2minSet rows1)) := rfl
  have hsub1 : rows1.Sublist rows := List.filter_sublist _
  have hids1 : (rows1.map Lead.id).Nodup := ((hsub1.map Lead.id).nodup hids)
  -- domainless rows pass the first sweep untouched
  have hmem1_dless : ∀ r ∈ rows, domainless r = true → r ∈ rows1 := by
    intro r hr hd
    rw [hrows1, List.mem_filter]
    refine ⟨hr, by simp [domainful_of_not_domainless hd]⟩
  -- the second sweep's group ids agree between `rows1` and `rows`
  have hgroups : ∀ k, p2groupIds rows1 k = p2groupIds rows k := by
    intro k
    rw [hrows1]
    apply filterMap_filter_eq
    intro x hx
    have hdx : domainless x = true := by
      by_cases hc : domainless x = true ∧ p2key x = k
      · exact hc.1
      · simp [p2groupIds, hc] at hx
    simp [domainful_of_not_domainless hdx]
  have hminsets : p2minSet rows1 = rows1.filterMap
      (fun r => if domainless r then p2min rows1 (p2key r) else Option.none) := rfl
  -- membership characterizations
  have hchar1 : ∀ r ∈ rows, domainful r = true →
      (r ∈ (remove_db_duplicates rows).1 ↔
        ∀ r' ∈ rows, domainful r' = true → p1key r' = p1key r → r.id ≤ r'.id) := by
    intro r hr hd
    rw [hfinal, List.mem_filter]
    have h2 : (decide ¬(domainless r = true ∧ ¬ r.id ∈ p2minSet rows1)) = true := by
      have := @domainful_of_not_domainless r
      by_cases hdl : domainless r = true
      · rw [this hdl] at hd
        cases hd
      · simp [hdl]
    rw [hrows1, List.mem_filter]
    constructor
    · rintro ⟨⟨hmem, hp1⟩, _⟩
      have : r.id ∈ p1minSet rows := by
        by_cases hin : r.id ∈ p1minSet rows
        · exact hin
        · simp [hd, hin] at hp1
      exact (p1_keep_iff hids hr hd).mp this
    · intro hall
      have hin : r.id ∈ p1minSet rows := (p1_keep_iff hids hr hd).mpr hall
      exact ⟨⟨hr, by simp [hin]⟩, h2⟩
  have hchar2 : ∀ r ∈ rows, domainless r = true →
      (r ∈ (remove_db_duplicates rows).1 ↔
        ∀ r' ∈ rows, domainless r' = true → p2key r' = p2key r → r.id ≤ r'.id) := by
    intro r hr hd
    have hr1 : r ∈ rows1 := hmem1_dless r hr hd
    rw [hfinal, List.mem_filter]
    have hiff := p2_keep_iff hids1 hr1 hd
    constructor
    · rintro ⟨_, hp2⟩
      have hin : r.id ∈ p2minSet rows1 := by
        by_cases hin : r.id ∈ p2minSet rows1
        · exact hin
        · simp [hd, hin] at hp2
      intro r' hr' hd' hk'
      exact hiff.mp hin r' (hmem1_dless r' hr' hd') hd' hk'
    · intro hall
      have hall1 : ∀ r' ∈ rows1, domainless r' = true → p2key r' = p2key r →
          r.id ≤ r'.id := by
        intro r' hr' hd' hk'
        exact hall r' (hsub1.mem hr') hd' hk'
      exact ⟨hr1, by simp [hiff.mpr hall1]⟩
  have hsubfinal : ∀ r ∈ (remove_db_duplicates rows).1, r ∈ rows := by
    intro r hr
    rw [hfinal] at hr
    exact hsub1.mem (List.mem_filter.mp hr).1
  refine ⟨hchar1, hchar2, ?_, ?_⟩
  · rintro r1 hr1 r2 hr2 (⟨hd1, hd2, hk⟩ | ⟨hd1, hd2, hk⟩)
    · have m1 := (hchar1 r1 (hsubfinal r1 hr1) hd1).mp hr1
      have m2 := (hchar1 r2 (hsubfinal r2 hr2) hd2).mp hr2
      have h12 := m1 r2 (hsubfinal r2 hr2) hd2 hk.symm
      have h21 := m2 r1 (hsubfinal r1 hr1) hd1 hk
      exact lead_id_inj hids r1 (hsubfinal r1 hr1) r2 (hsubfinal r2 hr2)
        (Nat.le_antisymm h12 h21)
    · have m1 := (hchar2 r1 (hsubfinal r1 hr1) hd1).mp hr1
      have m2 := (hchar2 r2 (hsubfinal r2 hr2) hd2).mp hr2
      have h12 := m1 r2 (hsubfinal r2 hr2) hd2 hk.symm
      have h21 := m2 r1 (hsubfinal r1 hr1) hd1 hk
      exact lead_id_inj hids r1 (hsubfinal r1 hr1) r2 (hsubfinal r2 hr2)
        (Nat.le_antisymm h12 h21)
  · intro r1 hr1 r2 hr2 hd1 hd2 _ hmin1 hmin2
    exact ⟨(hchar1 r1 hr1 hd1).mpr hmin1, (hchar1 r2 hr2 hd2).mpr hmin2⟩

def leadPizza1 : Lead := { id := 1, name := "Main Street Pizza" }

def leadPizza2 : Lead := { id := 2, name := "main street pizza " }

/-- Witness for C2: the lower-id of two domainless rows with
space-padded/case-variant names survives the sweep. -/
theorem C2_witness :
    leadPizza1 ∈ (remove_db_duplicates [leadPizza1, leadPizza2]).1 :=
  ((C2_merge_duplicates [leadPizza1, leadPizza2] (by decide)).2.1
    leadPizza1 (by decide) (by decide)).mpr (by decide)

def leadPlainName : Lead := { id := 1, name := "x" }

/-- The same name padded with a trailing tab: Python's `str.strip()` removes
the tab but SQLite's `TRIM` does not. -/
def leadTabName : Lead := { id := 2, name := "x\t" }

/-- **C2, counterexample**: two domainless leads whose names agree after a
generic trim + case-fold (`"x"` and `"x\t"`) are NOT collapsed by
`remove_db_duplicates`: SQLite `TRIM` strips only spaces, so
`GROUP BY LOWER(TRIM(name))` keys the tab-padded name to a distinct group
and both rows survive, with nothing removed. -/
theorem C2_counterexample :
    pyNorm leadTabName.name = pyNorm leadPlainName.name ∧
    sqlNorm leadTabName.name ≠ sqlNorm leadPlainName.name ∧
    domainless leadPlainName = true ∧ domainless leadTabName = true ∧
    remove_db_duplicates [leadPlainName, leadTabName] =
      ([leadPlainName, leadTabName], 0) := by decide

/-! ## Claim C1 (amended): idempotence of the dedup-aware insert path -/

theorem pyNorm_empty : pyNorm "" = "" := rfl

theorem pyNorm_eq_empty_of_str_empty {s : String} (h : s = "") : pyNorm s = "" := by
  rw [h]; rfl

theorem truthy_false_cases {o : Option String} (h : truthy o = false) :
    o = Option.none ∨ o = some "" := by
  cases o with
  | none => exact Or.inl rfl
  | some s =>
    simp [truthy] at h
    exact Or.inr (by rw [h])

theorem truthy_hitNormDomain {h : Hit}
    (hw : truthy h.domain = true → pyNorm (h.domain.getD "") ≠ "") :
    truthy (hitNormDomain h) = truthy h.domain := by
  unfold hitNormDomain
  by_cases hd : truthy h.domain = true
  · rw [if_pos hd, hd]
    simpa [truthy] using hw hd
  · rw [if_neg hd]
    have : truthy h.domain = false := by
      cases hb : truthy h.domain
      · rfl
      · exact absurd hb hd
    rw [this]
    rfl

/-- Under the whitespace-domain exclusion, the candidate has a domain iff its
normalized key's domain component is non-empty. -/
theorem hitKey_snd_ne {h : Hit}
    (hw : truthy h.domain = true → pyNorm (h.domain.getD "") ≠ "") :
    ((hitKey h).2 ≠ "" ↔ truthy h.domain = true) := by
  constructor
  · intro hne
    cases hb : truthy h.domain
    · rcases truthy_false_cases hb with hc | hc <;>
        (exfalso; apply hne; simp [hitKey, hc, pyNorm_empty])
    · rfl
  · intro ht
    exact hw ht

/-- A row is boundary-space-clean when SQLite's space-only normalization and
Python's all-whitespace normalization agree on its name and domain; the SQL
preload keys then coincide with the row's `leadKey` components. -/
def rowSpaceClean (r : Lead) : Prop :=
  sqlNorm r.name = pyNorm r.name ∧
  sqlNorm (r.domain.getD "") = pyNorm (r.domain.getD "")

instance (r : Lead) : Decidable (rowSpaceClean r) := by
  unfold rowSpaceClean
  infer_instance

theorem mem_withDomainKeys_iff {rows : List Lead}
    (hn : ∀ r ∈ rows, rowSpaceClean r)
    (n d : String) (hd : d ≠ "") :
    ((n, d) ∈ withDomainKeys rows ↔ ∃ r ∈ rows, leadKey r = (n, d)) := by
  unfold withDomainKeys
  rw [List.mem_filterMap]
  constructor
  · rintro ⟨r, hr, hf⟩
    refine ⟨r, hr, ?_⟩
    obtain ⟨hn1, hn2⟩ := hn r hr
    cases hdo : r.domain with
    | none => rw [hdo] at hf; cases hf
    | some s =>
      rw [hdo] at hf
      rw [hdo] at hn2
      simp only [Option.getD_some] at hn2
      have hf' : (if s ≠ "" then some (sqlNorm r.name, sqlNorm s) else Option.none)
          = some (n, d) := hf
      by_cases hs : s ≠ ""
      · rw [if_pos hs] at hf'
        have heq := Option.some.inj hf'
        unfold leadKey
        rw [hdo]
        simp only [Option.getD_some]
        rw [← hn1, ← hn2]
        exact heq
      · rw [if_neg hs] at hf'
        cases hf'
  · rintro ⟨r, hr, hk⟩
    refine ⟨r, hr, ?_⟩
    obtain ⟨hn1, hn2⟩ := hn r hr
    unfold leadKey at hk
    obtain ⟨hk1, hk2⟩ := Prod.ext_iff.mp hk
    cases hdo : r.domain with
    | none =>
      rw [hdo] at hk2
      simp at hk1 hk2
      exact absurd (pyNorm_empty ▸ hk2.symm) hd
    | some s =>
      rw [hdo] at hk2
      rw [hdo] at hn2
      simp only [Option.getD_some] at hn2
      simp at hk1 hk2
      have hs : s ≠ "" := by
        intro hse
        exact hd (hk2 ▸ pyNorm_eq_empty_of_str_empty hse)
      have hgoal : (if s ≠ "" then some (sqlNorm r.name, sqlNorm s) else Option.none)
          = some (n, d) := by
        rw [if_pos hs, hn1, hn2, hk1, hk2]
      exact hgoal

theorem mem_withoutDomainKeys_iff {rows : List Lead}
    (hw : ∀ r ∈ rows, truthy r.domain = true → pyNorm (r.domain.getD "") ≠ "")
    (hn : ∀ r ∈ rows, rowSpaceClean r)
    (n : String) :
    (n ∈ withoutDomainKeys rows ↔ ∃ r ∈ rows, leadKey r = (n, "")) := by
  unfold withoutDomainKeys
  rw [List.mem_filterMap]
  constructor
  · rintro ⟨r, hr, hf⟩
    refine ⟨r, hr, ?_⟩
    obtain ⟨hn1, _⟩ := hn r hr
    cases hdo : r.domain with
    | none =>
      rw [hdo] at hf
      have heq := Option.some.inj hf
      have hpn : pyNorm r.name = n := by rw [← hn1, heq]
      simp [leadKey, hdo, hpn, pyNorm_empty]
    | some s =>
      rw [hdo] at hf
      have hf' : (if s = "" then some (sqlNorm r.name) else Option.none) = some n := hf
      by_cases hs : s = ""
      · rw [if_pos hs] at hf'
        have heq := Option.some.inj hf'
        have hpn : pyNorm r.name = n := by rw [← hn1, heq]
        simp [leadKey, hdo, hpn, hs, pyNorm_empty]
      · rw [if_neg hs] at hf'
        cases hf'
  · rintro ⟨r, hr, hk⟩
    refine ⟨r, hr, ?_⟩
    obtain ⟨hn1, _⟩ := hn r hr
    unfold leadKey at hk
    obtain ⟨hk1, hk2⟩ := Prod.ext_iff.mp hk
    have hnt : truthy r.domain = false := by
      cases hb : truthy r.domain
      · rfl
      · exact absurd (hw r hr hb) (by simpa using hk2)
    have hk1' : pyNorm r.name = n := by simpa using hk1
    have hsn : sqlNorm r.name = n := by rw [hn1, hk1']
    rcases truthy_false_cases hnt with hc | hc <;> rw [hc] <;> simp [hsn]

/-- The duplicate check of `upsert_leads` against a pair of key sets, exactly
as phrased in `upsertStep`. -/
def dupCheck (withKeys : List (String × String)) (withoutKeys : List String)
    (h : Hit) : Prop :=
  (truthy (hitNormDomain h) = true ∧
    (pyNorm h.name, (hitNormDomain h).getD "") ∈ withKeys) ∨
  (¬ truthy (hitNormDomain h) = true ∧ pyNorm h.name ∈ withoutKeys)

instance (wk : List (String × String)) (wok : List String) (h : Hit) :
    Decidable (dupCheck wk wok h) := by
  unfold dupCheck
  infer_instance

/-- Over well-formed preloaded sets, the in-memory duplicate check accepts a
candidate exactly when some existing row has the candidate's normalized
`(name, domain)` key. -/
theorem dupCheck_iff {rows : List Lead}
    (hw : ∀ r ∈ rows, truthy r.domain = true → pyNorm (r.domain.getD "") ≠ "")
    (hn : ∀ r ∈ rows, rowSpaceClean r)
    {h : Hit} (hwh : truthy h.domain = true → pyNorm (h.domain.getD "") ≠ "") :
    (dupCheck (withDomainKeys rows) (withoutDomainKeys rows) h ↔
      ∃ r ∈ rows, leadKey r = hitKey h) := by
  unfold dupCheck
  rw [truthy_hitNormDomain hwh]
  by_cases ht : truthy h.domain = true
  · have hne : (hitKey h).2 ≠ "" := (hitKey_snd_ne hwh).mpr ht
    have hkey : (pyNorm h.name, (hitNormDomain h).getD "") = hitKey h := by
      unfold hitNormDomain hitKey
      rw [if_pos ht]
      rfl
    rw [hkey]
    simp only [ht, true_and, not_true_eq_false, false_and, or_false]
    have hpair : hitKey h = ((hitKey h).1, (hitKey h).2) := rfl
    rw [show (hitKey h) = ((hitKey h).1, (hitKey h).2) from rfl]
    exact mem_withDomainKeys_iff hn (hitKey h).1 (hitKey h).2 hne
  · have hfalse : truthy h.domain = false := by
      cases hb : truthy h.domain
      · rfl
      · exact absurd hb ht
    have hsnd : (hitKey h).2 = "" := by
      by_contra hne
      exact ht ((hitKey_snd_ne hwh).mp hne)
    have hfst : (hitKey h).1 = pyNorm h.name := rfl
    rw [hfalse]
    simp only [Bool.false_eq_true, false_and, not_false_eq_true, true_and, false_or]
    have := mem_withoutDomainKeys_iff hw hn (pyNorm h.name)
    rw [this]
    constructor
    · rintro ⟨r, hr, hk⟩
      exact ⟨r, hr, by rw [hk, show hitKey h = ((hitKey h).1, (hitKey h).2) from rfl, hfst, hsnd]⟩
    · rintro ⟨r, hr, hk⟩
      exact ⟨r, hr, by rw [hk, show hitKey h = ((hitKey h).1, (hitKey h).2) from rfl, hfst, hsnd]⟩

theorem uniqueViolation_match {rows : List Lead} {h : Hit}
    (hv : uniqueViolation rows h = true) :
    ∃ r ∈ rows, leadKey r = hitKey h := by
  unfold uniqueViolation at hv
  obtain ⟨r, hr, hp⟩ := List.any_eq_true.mp hv
  have hp' : r.name = h.name ∧ r.domain ≠ Option.none ∧ r.domain = h.domain := by
    simpa using hp
  exact ⟨r, hr, by unfold leadKey hitKey; rw [hp'.1, hp'.2.2]⟩

theorem matchCount_pos_iff (rows : List Lead) (h : Hit) :
    0 < matchCount rows h ↔ ∃ r ∈ rows, leadKey r = hitKey h := by
  unfold matchCount
  rw [List.length_pos]
  constructor
  · intro hne
    obtain ⟨r, hr⟩ := List.exists_mem_of_ne_nil _ hne
    have := List.mem_filter.mp hr
    exact ⟨r, this.1, by simpa using this.2⟩
  · rintro ⟨r, hr, hk⟩
    intro hnil
    have : r ∈ rows.filter (fun r => leadKey r == hitKey h) :=
      List.mem_filter.mpr ⟨hr, by simpa using hk⟩
    rw [hnil] at this
    cases this

theorem matchCount_append_single (rows : List Lead) (r : Lead) (h : Hit) :
    matchCount (rows ++ [r]) h =
      matchCount rows h + (if leadKey r = hitKey h then 1 else 0) := by
  unfold matchCount
  rw [List.filter_append, List.length_append]
  congr 1
  by_cases hk : leadKey r = hitKey h <;> simp [hk]

theorem leadKey_mkLead (id : Nat) (h : Hit) : leadKey (mkLead id h) = hitKey h := rfl

/-- The skip branch of one `upsert_leads` iteration. -/
theorem upsertStep_skip (st : UpsertState) (h : Hit) (hn : pyNorm h.name ≠ "")
    (hdup : dupCheck st.withKeys st.withoutKeys h) :
    upsertStep st h = { st with skipped := st.skipped + 1 } := by
  unfold dupCheck at hdup
  simp only [upsertStep]
  rw [if_neg hn, if_pos hdup]

/-- The insert branch of one `upsert_leads` iteration. -/
theorem upsertStep_insert (st : UpsertState) (h : Hit) (hn : pyNorm h.name ≠ "")
    (hdup : ¬ dupCheck st.withKeys st.withoutKeys h)
    (hviol : uniqueViolation st.rows h = false) :
    upsertStep st h =
      { rows := st.rows ++ [mkLead st.nextId h],
        nextId := st.nextId + 1,
        withKeys := if truthy (hitNormDomain h) = true then
            (pyNorm h.name, (hitNormDomain h).getD "") :: st.withKeys
          else st.withKeys,
        withoutKeys := if truthy (hitNormDomain h) = true then st.withoutKeys
          else pyNorm h.name :: st.withoutKeys,
        inserted := st.inserted + 1,
        skipped := st.skipped } := by
  unfold dupCheck at hdup
  simp only [upsertStep]
  rw [if_neg hn, if_neg hdup, if_neg (by simp [hviol])]

/-- The state `upsert_leads` builds before its loop. -/
def initState (db : DB) : UpsertState :=
  { rows := db.rows, nextId := db.nextId,
    withKeys := withDomainKeys db.rows,
    withoutKeys := withoutDomainKeys db.rows,
    inserted := 0, skipped := 0 }

theorem upsert_leads_single (db : DB) (h : Hit) :
    upsert_leads db [h] =
      ({ db with
         rows := (upsertStep (initState db) h).rows,
         nextId := (upsertStep (initState db) h).nextId },
       (upsertStep (initState db) h).inserted,
       (upsertStep (initState db) h).skipped) := rfl

theorem upsert_leads_pair (db : DB) (h1 h2 : Hit) :
    upsert_leads db [h1, h2] =
      ({ db with
         rows := (upsertStep (upsertStep (initState db) h1) h2).rows,
         nextId := (upsertStep (upsertStep (initState db) h1) h2).nextId },
       (upsertStep (upsertStep (initState db) h1) h2).inserted,
       (upsertStep (upsertStep (initState db) h1) h2).skipped) := rfl

theorem hitPair_eq (h : Hit) (ht : truthy h.domain = true) :
    (pyNorm h.name, (hitNormDomain h).getD "") = hitKey h := by
  unfold hitNormDomain hitKey
  rw [if_pos ht]
  rfl

def acmeHit : Hit := { name := "Acme Corp" }

def acmeVariantHit : Hit := { name := "acme corp " }

/-- Invariant carried through the contact-commit loop: a row for `i` exists,
its website/name/domain are those of `r`, and any of phone/email/address
that was non-empty in the contact-step fetch `cur` is unchanged from `r`. -/
def contactPreserved (i : Nat) (cur r : Lead) (db : DB) : Prop :=
  ∃ r', get_lead_by_id db i = some r' ∧
    r'.website = r.website ∧ r'.name = r.name ∧ r'.domain = r.domain ∧
    (truthy cur.phone = true → r'.phone = r.phone) ∧
    (truthy cur.email = true → r'.email = r.email) ∧
    (truthy cur.address = true → r'.address = r.address)

theorem contactPreserved_update_phone {i : Nat} {cur r : Lead} {db : DB}
    (h : contactPreserved i cur r db) (hg : truthy cur.phone = false)
    (v : Option String) :
    contactPreserved i cur r (update_lead_in_db db i "phone" v).2 := by
  obtain ⟨r', hget, hw, hn, hd, hp, he, ha⟩ := h
  rcases leadAt_update db i "phone" v i with hu | hu
  · exact ⟨r', hu ▸ hget, hw, hn, hd, hp, he, ha⟩
  · refine ⟨r'.setCol "phone" v, ?_, hw, hn, hd, ?_, he, ha⟩
    · rw [hu, hget]
      rfl
    · intro htp
      rw [htp] at hg
      cases hg

theorem contactPreserved_update_email {i : Nat} {cur r : Lead} {db : DB}
    (h : contactPreserved i cur r db) (hg : truthy cur.email = false)
    (v : Option String) :
    contactPreserved i cur r (update_lead_in_db db i "email" v).2 := by
  obtain ⟨r', hget, hw, hn, hd, hp, he, ha⟩ := h
  rcases leadAt_update db i "email" v i with hu | hu
  · exact ⟨r', hu ▸ hget, hw, hn, hd, hp, he, ha⟩
  · refine ⟨r'.setCol "email" v, ?_, hw, hn, hd, hp, ?_, ha⟩
    · rw [hu, hget]
      rfl
    · intro hte
      rw [hte] at hg
      cases hg

theorem contactPreserved_update_address {i : Nat} {cur r : Lead} {db : DB}
    (h : contactPreserved i cur r db) (hg : truthy cur.address = false)
    (v : Option String) :
    contactPreserved i cur r (update_lead_in_db db i "address" v).2 := by
  obtain ⟨r', hget, hw, hn, hd, hp, he, ha⟩ := h
  rcases leadAt_update db i "address" v i with hu | hu
  · exact ⟨r', hu ▸ hget, hw, hn, hd, hp, he, ha⟩
  · refine ⟨r'.setCol "address" v, ?_, hw, hn, hd, hp, he, ?_⟩
    · rw [hu, hget]
      rfl
    · intro hta
      rw [hta] at hg
      cases hg

theorem commitStep_preserved {i : Nat} {cur r : Lead}
    {kvs : List (String × PyObj)} {acc : DB × Bool} {f : String}
    (hf : f = "phone" ∨ f = "email" ∨ f = "address")
    (h : contactPreserved i cur r acc.1) :
    contactPreserved i cur r (commitStep i cur kvs acc f).1 := by
  unfold commitStep
  by_cases hc : ¬ truthy (cur.getCol f) = true ∧
      pyTruthy ((dictGet kvs f).getD .none) = true
  · rw [if_pos hc]
    have hguard : truthy (cur.getCol f) = false := by
      cases hb : truthy (cur.getCol f)
      · rfl
      · exact absurd hb hc.1
    rcases hf with hf | hf | hf <;> subst hf
    · exact contactPreserved_update_phone h hguard _
    · exact contactPreserved_update_email h hguard _
    · exact contactPreserved_update_address h hguard _
  · rw [if_neg hc]
    exact h

theorem commitContactFields_preserved (db : DB) (i : Nat) (cur : Lead)
    (kvs : List (String × PyObj)) (b : Bool) {r : Lead}
    (hfound : get_lead_by_id db i = some r) :
    contactPreserved i cur r (commitContactFields db i cur kvs b).1 := by
  have h0 : contactPreserved i cur r db :=
    ⟨r, hfound, rfl, rfl, rfl, fun _ => rfl, fun _ => rfl, fun _ => rfl⟩
  simp only [commitContactFields, List.foldl_cons, List.foldl_nil]
  exact commitStep_preserved (Or.inr (Or.inr rfl))
    (commitStep_preserved (Or.inr (Or.inl rfl))
      (commitStep_preserved (Or.inl rfl) h0))

/-- The events the contact step may add: navigation to the known website,
the contact-link click, and the contact-extraction LLM call — never a search
or website-validation call. -/
def silentLog (st st' : WState) (url : String) : Prop :=
  ∀ e ∈ st'.log, e ∈ st.log ∨ e = Event.navigate url ∨ e = Event.clickLink ∨
    ∃ t, e = Event.ollama (.contactExtraction t)

theorem silentLog_refl (st : WState) (url : String) : silentLog st st url :=
  fun e he => Or.inl he

theorem silentLog_addLog {st st' : WState} {url : String} {e0 : Event}
    (h : e0 = Event.navigate url ∨ e0 = Event.clickLink ∨
      ∃ t, e0 = Event.ollama (.contactExtraction t))
    (hs : silentLog (st.addLog e0) st' url) : silentLog st st' url := by
  intro e he
  rcases hs e he with hin | hrest
  · rcases List.mem_append.mp hin with hl | hr
    · exact Or.inl hl
    · have : e = e0 := by simpa using hr
      exact this ▸ Or.inr h
  · exact Or.inr hrest

/-- Behaviour of the contact step of `find_and_fill_with_selenium` when the
lead exists: it never writes the website column, commits contact fields only
when they were empty in its own fetch, logs no search or website-validation
event, and on an uncaught exception the store is untouched. -/
theorem ffContact_spec (env : Env) (st : WState) (i : Nat) (url : String)
    (b : Bool) (cur : Lead) (hfound : get_lead_by_id st.db i = some cur) :
    (∀ e st', ffContact env st i url b = .error (e, st') →
      st'.db = st.db ∧ silentLog st st' url) ∧
    (∀ st' b', ffContact env st i url b = .ok (st', b') →
      silentLog st st' url ∧ contactPreserved i cur cur st'.db) := by
  have hpres0 : contactPreserved i cur cur st.db :=
    ⟨cur, hfound, rfl, rfl, rfl, fun _ => rfl, fun _ => rfl, fun _ => rfl⟩
  have hs1 : ∀ e0, (e0 = Event.navigate url ∨ e0 = Event.clickLink ∨
      ∃ t, e0 = Event.ollama (.contactExtraction t)) →
      ∀ st1, silentLog st1 st1 url → True := fun _ _ _ _ => trivial
  unfold ffContact
  simp only [hfound]
  by_cases hneed : ¬ (truthy cur.phone = true ∧ truthy cur.email = true ∧
      truthy cur.address = true)
  · rw [if_pos hneed]
    cases hnav : env.navigate url with
    | false =>
      simp only [hnav, Bool.false_eq_true, if_false]
      constructor
      · intro e st' heq
        cases heq
      · intro st' b' heq
        obtain ⟨h1, h2⟩ := Prod.mk.injEq .. ▸ (Except.ok.inj heq)
        subst h1
        constructor
        · intro e he
          rcases List.mem_append.mp he with hl | hr
          · exact Or.inl hl
          · exact Or.inr (Or.inl (by simpa using hr))
        · exact hpres0
    | true =>
      simp only [hnav, if_true]
      by_cases htext : env.pageText url ≠ ""
      · rw [if_pos htext]
        cases hcall : call_ollama_model
            (env.ollamaRaw (.contactExtraction (env.pageText url))) true with
        | error e0 =>
          simp only [hcall]
          constructor
          · intro e st' heq
            obtain ⟨h1, h2⟩ := Prod.mk.injEq .. ▸ (Except.error.inj heq)
            subst h2
            refine ⟨rfl, ?_⟩
            intro ev hev
            simp only [WState.addLog, List.append_assoc] at hev
            rcases List.mem_append.mp hev with hl | hr
            · exact Or.inl hl
            · rcases List.mem_append.mp hr with h2 | h2
              · exact Or.inr (Or.inl (by simpa using h2))
              · rcases List.mem_append.mp h2 with h3 | h3
                · exact Or.inr (Or.inr (Or.inl (by simpa using h3)))
                · exact Or.inr (Or.inr (Or.inr ⟨_, by simpa using h3⟩))
          · intro st' b' heq
            cases heq
        | ok v =>
          simp only [hcall]
          have hlog3 : ∀ st' : WState,
              st'.log = st.log ++ [Event.navigate url] ++ [Event.clickLink] ++
                [Event.ollama (.contactExtraction (env.pageText url))] →
              silentLog st st' url := by
            intro st' hlog e he
            rw [hlog] at he
            rcases List.mem_append.mp he with h2 | h2
            · rcases List.mem_append.mp h2 with h3 | h3
              · rcases List.mem_append.mp h3 with h4 | h4
                · exact Or.inl h4
                · exact Or.inr (Or.inl (by simpa using h4))
              · exact Or.inr (Or.inr (Or.inl (by simpa using h3)))
            · exact Or.inr (Or.inr (Or.inr ⟨_, by simpa using h2⟩))
          cases v with
          | dict kvs =>
            constructor
            · intro e st' heq
              cases heq
            · intro st' b' heq
              obtain ⟨h1, h2⟩ := Prod.mk.injEq .. ▸ (Except.ok.inj heq)
              subst h1
              refine ⟨hlog3 _ (by simp [WState.addLog]), ?_⟩
              exact commitContactFields_preserved _ i cur kvs b hfound
          | none =>
            constructor
            · intro e st' heq
              cases heq
            · intro st' b' heq
              obtain ⟨h1, h2⟩ := Prod.mk.injEq .. ▸ (Except.ok.inj heq)
              subst h1
              exact ⟨hlog3 _ (by simp [WState.addLog]), hpres0⟩
          | bool b0 =>
            constructor
            · intro e st' heq
              cases heq
            · intro st' b' heq
              obtain ⟨h1, h2⟩ := Prod.mk.injEq .. ▸ (Except.ok.inj heq)
              subst h1
              exact ⟨hlog3 _ (by simp [WState.addLog]), hpres0⟩
          | int n =>
            constructor
            · intro e st' heq
              cases heq
            · intro st' b' heq
              obtain ⟨h1, h2⟩ := Prod.mk.injEq .. ▸ (Except.ok.inj heq)
              subst h1
              exact ⟨hlog3 _ (by simp [WState.addLog]), hpres0⟩
          | str s =>
            constructor
            · intro e st' heq
              cases heq
            · intro st' b' heq
              obtain ⟨h1, h2⟩ := Prod.mk.injEq .. ▸ (Except.ok.inj heq)
              subst h1
              exact ⟨hlog3 _ (by simp [WState.addLog]), hpres0⟩
          | list xs =>
            constructor
            · intro e st' heq
              cases heq
            · intro st' b' heq
              obtain ⟨h1, h2⟩ := Prod.mk.injEq .. ▸ (Except.ok.inj heq)
              subst h1
              exact ⟨hlog3 _ (by simp [WState.addLog]), hpres0⟩
      · rw [if_neg htext]
        constructor
        · intro e st' heq
          cases heq
        · intro st' b' heq
          obtain ⟨h1, h2⟩ := Prod.mk.injEq .. ▸ (Except.ok.inj heq)
          subst h1
          refine ⟨?_, hpres0⟩
          intro e he
          simp only [WState.addLog] at he
          rcases List.mem_append.mp he with h2 | h2
          · rcases List.mem_append.mp h2 with h3 | h3
            · exact Or.inl h3
            · exact Or.inr (Or.inl (by simpa using h3))
          · exact Or.inr (Or.inr (Or.inl (by simpa using h2)))
  · rw [if_neg hneed]
    constructor
    · intro e st' heq
      cases heq
    · intro st' b' heq
      obtain ⟨h1, h2⟩ := Prod.mk.injEq .. ▸ (Except.ok.inj heq)
      subst h1
      exact ⟨silentLog_refl st url, hpres0⟩

theorem ffStep_website_present (env : Env) (st : WState) (i : Nat) (lead : Lead)
    (hfound : get_lead_by_id st.db i = some lead)
    (hweb : truthy lead.website = true) :
    (∀ st' n, ffStep env st i = .ok (st', n) →
      silentLog st st' (lead.website.getD "") ∧ contactPreserved i lead lead st'.db) ∧
    (∀ e st', ffStep env st i = .error (e, st') →
      st'.db = st.db ∧ silentLog st st' (lead.website.getD "")) := by
  have hC := ffContact_spec env st i (lead.website.getD "") false lead hfound
  constructor
  · intro st' n hstep
    cases hres : ffContact env st i (lead.website.getD "") false with
    | error e =>
      have hthis : ffStep env st i = .error e := by
        simp [ffStep, hfound, hweb, hres]
      rw [hthis] at hstep
      cases hstep
    | ok p =>
      have hthis : ffStep env st i = .ok (p.1, if p.2 then 1 else 0) := by
        simp [ffStep, hfound, hweb, hres]
      rw [hthis] at hstep
      obtain ⟨h1, _⟩ := Prod.mk.injEq .. ▸ Except.ok.inj hstep
      subst h1
      exact hC.2 p.1 p.2 hres
  · intro e st' hstep
    cases hres : ffContact env st i (lead.website.getD "") false with
    | error e0 =>
      have hthis : ffStep env st i = .error e0 := by
        simp [ffStep, hfound, hweb, hres]
      rw [hthis] at hstep
      have := Except.error.inj hstep
      subst this
      exact hC.1 e st' hres
    | ok p =>
      have hthis : ffStep env st i = .ok (p.1, if p.2 then 1 else 0) := by
        simp [ffStep, hfound, hweb, hres]
      rw [hthis] at hstep
      cases hstep

theorem fillStep_website_present (env : Env) (st : WState) (i : Nat) (lead : Lead)
    (hfound : get_lead_by_id st.db i = some lead)
    (hweb : truthy lead.website = true) :
    (∀ st' n, fillStep env st i = .ok (st', n) →
      silentLog st st' (lead.website.getD "") ∧ contactPreserved i lead lead st'.db) ∧
    (∀ e st', fillStep env st i = .error (e, st') →
      st'.db = st.db ∧ silentLog st st' (lead.website.getD "")) := by
  have hpres0 : contactPreserved i lead lead st.db :=
    ⟨lead, hfound, rfl, rfl, rfl, fun _ => rfl, fun _ => rfl, fun _ => rfl⟩
  set url := lead.website.getD "" with hurl
  have hlog2 : ∀ st' : WState,
      st'.log = st.log ++ [Event.navigate url] ++ [Event.clickLink] →
      silentLog st st' url := by
    intro st' hlog e he
    rw [hlog] at he
    rcases List.mem_append.mp he with h2 | h2
    · rcases List.mem_append.mp h2 with h3 | h3
      · exact Or.inl h3
      · exact Or.inr (Or.inl (by simpa using h3))
    · exact Or.inr (Or.inr (Or.inl (by simpa using h2)))
  have hlog3 : ∀ st' : WState,
      st'.log = st.log ++ [Event.navigate url] ++ [Event.clickLink] ++
        [Event.ollama (.contactExtraction (env.pageText url))] →
      silentLog st st' url := by
    intro st' hlog e he
    rw [hlog] at he
    rcases List.mem_append.mp he with h2 | h2
    · rcases List.mem_append.mp h2 with h3 | h3
      · rcases List.mem_append.mp h3 with h4 | h4
        · exact Or.inl h4
        · exact Or.inr (Or.inl (by simpa using h4))
      · exact Or.inr (Or.inr (Or.inl (by simpa using h3)))
    · exact Or.inr (Or.inr (Or.inr ⟨_, by simpa using h2⟩))
  have hmain : fillStep env st i =
      (if ¬ (truthy lead.phone = true ∧ truthy lead.email = true ∧
          truthy lead.address = true) then
        (if env.pageText url ≠ "" then
          (match call_ollama_model
              (env.ollamaRaw (.contactExtraction (env.pageText url))) true with
           | .error e =>
             .error (e, ((st.addLog (.navigate url)).addLog .clickLink).addLog
               (.ollama (.contactExtraction (env.pageText url))))
           | .ok extracted =>
             match extracted with
             | .dict kvs =>
               let st3 := ((st.addLog (.navigate url)).addLog .clickLink).addLog
                 (.ollama (.contactExtraction (env.pageText url)))
               let r := commitContactFields st3.db i lead kvs false
               .ok ({ st3 with db := r.1 }, if r.2 then 1 else 0)
             | _ =>
               .ok (((st.addLog (.navigate url)).addLog .clickLink).addLog
                 (.ollama (.contactExtraction (env.pageText url))), 0))
        else .ok ((st.addLog (.navigate url)).addLog .clickLink, 0))
      else .ok (st, 0)) := by
    simp only [fillStep, hfound, hweb]
    simp [hfound, hweb, WState.addLog]
  by_cases hneed : ¬ (truthy lead.phone = true ∧ truthy lead.email = true ∧
      truthy lead.address = true)
  · rw [if_pos hneed] at hmain
    by_cases htext : env.pageText url ≠ ""
    · rw [if_pos htext] at hmain
      cases hcall : call_ollama_model
          (env.ollamaRaw (.contactExtraction (env.pageText url))) true with
      | error e0 =>
        rw [hcall] at hmain
        constructor
        · intro st' n hstep
          rw [hmain] at hstep
          cases hstep
        · intro e st' hstep
          rw [hmain] at hstep
          obtain ⟨h1, h2⟩ := Prod.mk.injEq .. ▸ Except.error.inj hstep
          subst h2
          exact ⟨rfl, hlog3 _ (by simp [WState.addLog])⟩
      | ok v =>
        rw [hcall] at hmain
        cases v with
        | dict kvs =>
          constructor
          · intro st' n hstep
            rw [hmain] at hstep
            obtain ⟨h1, _⟩ := Prod.mk.injEq .. ▸ Except.ok.inj hstep
            subst h1
            refine ⟨hlog3 _ (by simp [WState.addLog]), ?_⟩
            exact commitContactFields_preserved _ i lead kvs false hfound
          · intro e st' hstep
            rw [hmain] at hstep
            cases hstep
        | none =>
          constructor
          · intro st' n hstep
            rw [hmain] at hstep
            obtain ⟨h1, _⟩ := Prod.mk.injEq .. ▸ Except.ok.inj hstep
            subst h1
            exact ⟨hlog3 _ (by simp [WState.addLog]), hpres0⟩
          · intro e st' hstep
            rw [hmain] at hstep
            cases hstep
        | bool b0 =>
          constructor
          · intro st' n hstep
            rw [hmain] at hstep
            obtain ⟨h1, _⟩ := Prod.mk.injEq .. ▸ Except.ok.inj hstep
            subst h1
            exact ⟨hlog3 _ (by simp [WState.addLog]), hpres0⟩
          · intro e st' hstep
            rw [hmain] at hstep
            cases hstep
        | int n0 =>
          constructor
          · intro st' n hstep
            rw [hmain] at hstep
            obtain ⟨h1, _⟩ := Prod.mk.injEq .. ▸ Except.ok.inj hstep
            subst h1
            exact ⟨hlog3 _ (by simp [WState.addLog]), hpres0⟩
          · intro e st' hstep
            rw [hmain] at hstep
            cases hstep
        | str s0 =>
          constructor
          · intro st' n hstep
            rw [hmain] at hstep
            obtain ⟨h1, _⟩ := Prod.mk.injEq .. ▸ Except.ok.inj hstep
            subst h1
            exact ⟨hlog3 _ (by simp [WState.addLog]), hpres0⟩
          · intro e st' hstep
            rw [hmain] at hstep
            cases hstep
        | list xs =>
          constructor
          · intro st' n hstep
            rw [hmain] at hstep
            obtain ⟨h1, _⟩ := Prod.mk.injEq .. ▸ Except.ok.inj hstep
            subst h1
            exact ⟨hlog3 _ (by simp [WState.addLog]), hpres0⟩
          · intro e st' hstep
            rw [hmain] at hstep
            cases hstep
    · rw [if_neg htext] at hmain
      constructor
      · intro st' n hstep
        rw [hmain] at hstep
        obtain ⟨h1, _⟩ := Prod.mk.injEq .. ▸ Except.ok.inj hstep
        subst h1
        exact ⟨hlog2 _ (by simp [WState.addLog]), hpres0⟩
      · intro e st' hstep
        rw [hmain] at hstep
        cases hstep
  · rw [if_neg hneed] at hmain
    constructor
    · intro st' n hstep
      rw [hmain] at hstep
      obtain ⟨h1, _⟩ := Prod.mk.injEq .. ▸ Except.ok.inj hstep
      subst h1
      exact ⟨silentLog_refl st url, hpres0⟩
    · intro e st' hstep
      rw [hmain] at hstep
      cases hstep

/-- **C3**: for a lead whose website is already non-empty when its processing
starts, `find_missing_websites_for_leads` and
`find_missing_websites_with_selenium` do nothing at all (no lookup, no call,
no write, no count); and in `find_and_fill_with_selenium` /
`fill_missing_data_for_leads` the website step performs no search or
website-validation call, the stored website value is never overwritten, and
the contact-extraction step commits phone/email/address only to fields that
were still empty at its own (re-)fetch. -/
theorem C3_field_write_once (env : Env) (st : WState) (i : Nat) (lead : Lead)
    (hfound : get_lead_by_id st.db i = some lead)
    (hweb : truthy lead.website = true) :
    fmwStep env st i = .ok (st, 0) ∧
    fmwsStep env st i = .ok (st, 0) ∧
    (∀ st' n, ffStep env st i = .ok (st', n) →
      silentLog st st' (lead.website.getD "") ∧ contactPreserved i lead lead st'.db) ∧
    (∀ e st', ffStep env st i = .error (e, st') →
      st'.db = st.db ∧ silentLog st st' (lead.website.getD "")) ∧
    (∀ st' n, fillStep env st i = .ok (st', n) →
      silentLog st st' (lead.website.getD "") ∧ contactPreserved i lead lead st'.db) ∧
    (∀ e st', fillStep env st i = .error (e, st') →
      st'.db = st.db ∧ silentLog st st' (lead.website.getD "")) := by
  refine ⟨?_, ?_, (ffStep_website_present env st i lead hfound hweb).1,
    (ffStep_website_present env st i lead hfound hweb).2,
    (fillStep_website_present env st i lead hfound hweb).1,
    (fillStep_website_present env st i lead hfound hweb).2⟩
  · simp [fmwStep, hfound, hweb]
  · simp [fmwsStep, hfound, hweb]

def leadWithSite : Lead :=
  { id := 7, name := "Gamma", website := some "http://gamma.example",
    phone := some "555-1" }

def dbSite : DB := { rows := [leadWithSite], nextId := 8 }

/-- Witness for C3: a lead with a website is completely skipped by
`find_missing_websites_for_leads`. -/
theorem C3_witness :
    fmwStep envYes { db := dbSite } 7 = .ok ({ db := dbSite }, 0) :=
  (C3_field_write_once envYes { db := dbSite } 7 leadWithSite rfl (by decide)).1

/-- The LLM verdict for every candidate parses but fails the truthiness
acceptance check (`fill_missing_data_for_leads`, `find_and_fill_with_selenium`). -/
def rejectsTruthy (env : Env) (lead : Lead) : Prop :=
  ∀ cand : SearchResult, ∃ v,
    call_ollama_model (env.ollamaRaw (.websiteValidation lead cand)) true = .ok v ∧
    acceptTruthy v = false

/-- The LLM verdict for every candidate parses but fails the strict `is True`
check (`find_missing_websites_for_leads`, `find_missing_websites_with_selenium`). -/
def rejectsStrict (env : Env) (lead : Lead) : Prop :=
  ∀ cand : SearchResult, ∃ v,
    call_ollama_model (env.ollamaRaw (.websiteValidation lead cand)) true = .ok v ∧
    acceptIsTrue v = false

/-- Only website-resolution events (searches and validation calls) were
added to the log — in particular no navigation and no contact extraction. -/
def searchOnlyLog (st st' : WState) (lead : Lead) : Prop :=
  ∀ e ∈ st'.log, e ∈ st.log ∨ (∃ q n, e = Event.browserSearch q n) ∨
    (∃ q, e = Event.gcse q) ∨ ∃ cand, e = Event.ollama (.websiteValidation lead cand)

theorem searchOnlyLog_trans_addSearch {st st1 st' : WState} {lead : Lead}
    {e0 : Event}
    (h0 : (∃ q n, e0 = Event.browserSearch q n) ∨ (∃ q, e0 = Event.gcse q))
    (h1 : st1.log = st.log ++ [e0])
    (h2 : searchOnlyLog st1 st' lead) : searchOnlyLog st st' lead := by
  intro e he
  rcases h2 e he with hin | hrest
  · rw [h1] at hin
    rcases List.mem_append.mp hin with hl | hr
    · exact Or.inl hl
    · have he0 : e = e0 := by simpa using hr
      rcases h0 with ⟨q, n, hq⟩ | ⟨q, hq⟩
      · exact Or.inr (Or.inl ⟨q, n, he0.trans hq⟩)
      · exact Or.inr (Or.inr (Or.inl ⟨q, he0.trans hq⟩))
  · exact Or.inr hrest

theorem ffResults_reject (env : Env) (lead : Lead) (i : Nat)
    (results : List SearchResult) :
    ∀ st : WState, rejectsTruthy env lead →
    ∃ st', ffResults env lead i st results = .ok (st', Option.none) ∧
      st'.db = st.db ∧ searchOnlyLog st st' lead := by
  induction results with
  | nil =>
    intro st _
    exact ⟨st, rfl, rfl, fun e he => Or.inl he⟩
  | cons r rest ih =>
    intro st hrej
    obtain ⟨v, hv, hacc⟩ := hrej r
    have heq : ffResults env lead i st (r :: rest) =
        ffResults env lead i (st.addLog (.ollama (.websiteValidation lead r))) rest := by
      simp only [ffResults]
      rw [hv]
      simp [hacc]
    obtain ⟨st', h1, h2, h3⟩ := ih (st.addLog (.ollama (.websiteValidation lead r))) hrej
    refine ⟨st', by rw [heq]; exact h1, h2, ?_⟩
    intro e he
    rcases h3 e he with hin | hrest
    · simp only [WState.addLog] at hin
      rcases List.mem_append.mp hin with hl | hr
      · exact Or.inl hl
      · exact Or.inr (Or.inr (Or.inr ⟨r, by simpa using hr⟩))
    · exact Or.inr hrest

theorem ffQueries_reject (env : Env) (lead : Lead) (i : Nat) (qs : List String) :
    ∀ (st : WState) (w : Option String), truthy w = false → rejectsTruthy env lead →
    ∃ st', ffQueries env lead i qs st w false = .ok (st', w, false) ∧
      st'.db = st.db ∧ searchOnlyLog st st' lead := by
  induction qs with
  | nil =>
    intro st w _ _
    exact ⟨st, rfl, rfl, fun e he => Or.inl he⟩
  | cons q qs' ih =>
    intro st w hw hrej
    obtain ⟨st1, hr1, hdb1, hlog1⟩ :=
      ffResults_reject env lead i (env.browserSearch q 3)
        (st.addLog (.browserSearch q 3)) hrej
    have heq : ffQueries env lead i (q :: qs') st w false =
        ffQueries env lead i qs' st1 w false := by
      simp only [ffQueries]
      rw [if_neg (by simp [hw])]
      rw [hr1]
    obtain ⟨st2, hr2, hdb2, hlog2⟩ := ih st1 w hw hrej
    refine ⟨st2, by rw [heq]; exact hr2, by rw [hdb2, hdb1]; rfl, ?_⟩
    have hmid : searchOnlyLog st st1 lead := by
      intro e he
      rcases hlog1 e he with hin | hrest
      · simp only [WState.addLog] at hin
        rcases List.mem_append.mp hin with hl | hr
        · exact Or.inl hl
        · exact Or.inr (Or.inl ⟨q, 3, by simpa using hr⟩)
      · exact Or.inr hrest
    intro e he
    rcases hlog2 e he with hin | hrest
    · exact hmid e hin
    · exact Or.inr hrest

theorem fmwsResults_reject (env : Env) (lead : Lead) (i : Nat)
    (results : List SearchResult) :
    ∀ st : WState, rejectsStrict env lead →
    ∃ st', fmwsResults env lead i st results = .ok (st', Option.none, 0) ∧
      st'.db = st.db ∧ searchOnlyLog st st' lead := by
  induction results with
  | nil =>
    intro st _
    exact ⟨st, rfl, rfl, fun e he => Or.inl he⟩
  | cons r rest ih =>
    intro st hrej
    obtain ⟨v, hv, hacc⟩ := hrej r
    have heq : fmwsResults env lead i st (r :: rest) =
        fmwsResults env lead i (st.addLog (.ollama (.websiteValidation lead r))) rest := by
      simp only [fmwsResults]
      rw [hv]
      simp [hacc]
    obtain ⟨st', h1, h2, h3⟩ := ih (st.addLog (.ollama (.websiteValidation lead r))) hrej
    refine ⟨st', by rw [heq]; exact h1, h2, ?_⟩
    intro e he
    rcases h3 e he with hin | hrest
    · simp only [WState.addLog] at hin
      rcases List.mem_append.mp hin with hl | hr
      · exact Or.inl hl
      · exact Or.inr (Or.inr (Or.inr ⟨r, by simpa using hr⟩))
    · exact Or.inr hrest

theorem fmwsQueries_reject (env : Env) (lead : Lead) (i : Nat) (qs : List String) :
    ∀ (st : WState) (inc : Nat), rejectsStrict env lead →
    ∃ st', fmwsQueries env lead i qs st Option.none inc = .ok (st', Option.none, inc) ∧
      st'.db = st.db ∧ searchOnlyLog st st' lead := by
  induction qs with
  | nil =>
    intro st inc _
    exact ⟨st, rfl, rfl, fun e he => Or.inl he⟩
  | cons q qs' ih =>
    intro st inc hrej
    have hnone : truthy (Option.none : Option String) = false := rfl
    cases hres : env.browserSearch q 5 with
    | nil =>
      have heq : fmwsQueries env lead i (q :: qs') st Option.none inc =
          fmwsQueries env lead i qs' (st.addLog (.browserSearch q 5)) Option.none inc := by
        simp only [fmwsQueries]
        rw [if_neg (by simp [hnone])]
        rw [hres]
      obtain ⟨st', h1, h2, h3⟩ := ih (st.addLog (.browserSearch q 5)) inc hrej
      refine ⟨st', by rw [heq]; exact h1, h2, ?_⟩
      intro e he
      rcases h3 e he with hin | hrest
      · simp only [WState.addLog] at hin
        rcases List.mem_append.mp hin with hl | hr
        · exact Or.inl hl
        · exact Or.inr (Or.inl ⟨q, 5, by simpa using hr⟩)
      · exact Or.inr hrest
    | cons r0 rest0 =>
      obtain ⟨st1, hr1, hdb1, hlog1⟩ :=
        fmwsResults_reject env lead i (r0 :: rest0)
          (st.addLog (.browserSearch q 5)) hrej
      have heq : fmwsQueries env lead i (q :: qs') st Option.none inc =
          fmwsQueries env lead i qs' st1 Option.none (inc + 0) := by
        simp only [fmwsQueries]
        rw [if_neg (by simp [hnone])]
        simp only [hres, hr1]
      obtain ⟨st2, hr2, hdb2, hlog2⟩ := ih st1 (inc + 0) hrej
      refine ⟨st2, by rw [heq]; exact hr2, by rw [hdb2, hdb1]; rfl, ?_⟩
      have hmid : searchOnlyLog st st1 lead := by
        intro e he
        rcases hlog1 e he with hin | hrest
        · simp only [WState.addLog] at hin
          rcases List.mem_append.mp hin with hl | hr
          · exact Or.inl hl
          · exact Or.inr (Or.inl ⟨q, 5, by simpa using hr⟩)
        · exact Or.inr hrest
      intro e he
      rcases hlog2 e he with hin | hrest
      · exact hmid e hin
      · exact Or.inr hrest

theorem fmwStep_reject (env : Env) (st : WState) (i : Nat) (lead : Lead)
    (hfound : get_lead_by_id st.db i = some lead)
    (hnoweb : truthy lead.website = false)
    (hrej : rejectsStrict env lead) :
    ∃ st', fmwStep env st i = .ok (st', 0) ∧ st'.db = st.db ∧
      searchOnlyLog st st' lead := by
  cases hres : env.gcse (gcseQuery lead) with
  | nil =>
    refine ⟨st.addLog (.gcse (gcseQuery lead)), ?_, rfl, ?_⟩
    · simp [fmwStep, hfound, hnoweb, hres]
    · intro e he
      simp only [WState.addLog] at he
      rcases List.mem_append.mp he with hl | hr
      · exact Or.inl hl
      · exact Or.inr (Or.inr (Or.inl ⟨_, by simpa using hr⟩))
  | cons top rest =>
    obtain ⟨v, hv, hacc⟩ := hrej top
    refine ⟨(st.addLog (.gcse (gcseQuery lead))).addLog
      (.ollama (.websiteValidation lead top)), ?_, rfl, ?_⟩
    · simp [fmwStep, hfound, hnoweb, hres, hv, hacc]
    · intro e he
      simp only [WState.addLog, List.append_assoc] at he
      rcases List.mem_append.mp he with hl | hr
      · exact Or.inl hl
      · rcases List.mem_append.mp hr with h2 | h2
        · exact Or.inr (Or.inr (Or.inl ⟨_, by simpa using h2⟩))
        · exact Or.inr (Or.inr (Or.inr ⟨top, by simpa using h2⟩))

theorem fmwsStep_reject (env : Env) (st : WState) (i : Nat) (lead : Lead)
    (hfound : get_lead_by_id st.db i = some lead)
    (hnoweb : truthy lead.website = false)
    (hrej : rejectsStrict env lead) :
    ∃ st', fmwsStep env st i = .ok (st', 0) ∧ st'.db = st.db ∧
      searchOnlyLog st st' lead := by
  obtain ⟨st', h1, h2, h3⟩ :=
    fmwsQueries_reject env lead i [seleniumQuery1 lead, seleniumQuery2 lead] st 0 hrej
  refine ⟨st', ?_, h2, h3⟩
  simp [fmwsStep, hfound, hnoweb, h1]

theorem ffStep_reject (env : Env) (st : WState) (i : Nat) (lead : Lead)
    (hfound : get_lead_by_id st.db i = some lead)
    (hnoweb : truthy lead.website = false)
    (hrej : rejectsTruthy env lead) :
    ∃ st', ffStep env st i = .ok (st', 0) ∧ st'.db = st.db ∧
      searchOnlyLog st st' lead := by
  obtain ⟨st', h1, h2, h3⟩ :=
    ffQueries_reject env lead i [seleniumQuery1 lead, seleniumQuery2 lead]
      st lead.website hnoweb hrej
  refine ⟨st', ?_, h2, h3⟩
  simp [ffStep, hfound, hnoweb, h1]

theorem fillStep_reject (env : Env) (st : WState) (i : Nat) (lead : Lead)
    (hfound : get_lead_by_id st.db i = some lead)
    (hnoweb : truthy lead.website = false)
    (hrej : rejectsTruthy env lead) :
    ∃ st', fillStep env st i = .ok (st', 0) ∧ st'.db = st.db ∧
      searchOnlyLog st st' lead := by
  cases hres : env.gcse (gcseQuery lead) with
  | nil =>
    refine ⟨st.addLog (.gcse (gcseQuery lead)), ?_, rfl, ?_⟩
    · simp [fillStep, hfound, hnoweb, hres]
    · intro e he
      simp only [WState.addLog] at he
      rcases List.mem_append.mp he with hl | hr
      · exact Or.inl hl
      · exact Or.inr (Or.inr (Or.inl ⟨_, by simpa using hr⟩))
  | cons top rest =>
    obtain ⟨v, hv, hacc⟩ := hrej top
    refine ⟨(st.addLog (.gcse (gcseQuery lead))).addLog
      (.ollama (.websiteValidation lead top)), ?_, rfl, ?_⟩
    · simp [fillStep, hfound, hnoweb, hres, hv, hacc]
    · intro e he
      simp only [WState.addLog, List.append_assoc] at he
      rcases List.mem_append.mp he with hl | hr
      · exact Or.inl hl
      · rcases List.mem_append.mp hr with h2 | h2
        · exact Or.inr (Or.inr (Or.inl ⟨_, by simpa using h2⟩))
        · exact Or.inr (Or.inr (Or.inr ⟨top, by simpa using h2⟩))

/-- **C4 (amended)**: for a lead whose website is missing, any LLM response
that is raw text, `None`, a non-dict value, or a dict whose
`is_correct_website` is not accepted by the respective gate causes no
website/domain write in any of the four workflows — where the gate is the
strict `is True` check in `find_missing_websites_for_leads` and
`find_missing_websites_with_selenium`, but only Python truthiness in
`fill_missing_data_for_leads` and `find_and_fill_with_selenium`; a dict whose
`is_correct_website` is truthy-but-not-`True` (see the counterexample) IS
written by the latter two. -/
theorem C4_amended_fail_closed (env : Env) (st : WState) (i : Nat) (lead : Lead)
    (hfound : get_lead_by_id st.db i = some lead)
    (hnoweb : truthy lead.website = false)
    (hrejS : rejectsStrict env lead) (hrejT : rejectsTruthy env lead) :
    (∃ st', fmwStep env st i = .ok (st', 0) ∧ st'.db = st.db) ∧
    (∃ st', fmwsStep env st i = .ok (st', 0) ∧ st'.db = st.db) ∧
    (∃ st', ffStep env st i = .ok (st', 0) ∧ st'.db = st.db) ∧
    (∃ st', fillStep env st i = .ok (st', 0) ∧ st'.db = st.db) := by
  obtain ⟨s1, a1, b1, _⟩ := fmwStep_reject env st i lead hfound hnoweb hrejS
  obtain ⟨s2, a2, b2, _⟩ := fmwsStep_reject env st i lead hfound hnoweb hrejS
  obtain ⟨s3, a3, b3, _⟩ := ffStep_reject env st i lead hfound hnoweb hrejT
  obtain ⟨s4, a4, b4, _⟩ := fillStep_reject env st i lead hfound hnoweb hrejT
  exact ⟨⟨s1, a1, b1⟩, ⟨s2, a2, b2⟩, ⟨s3, a3, b3⟩, ⟨s4, a4, b4⟩⟩

/-- Witness for the amended C4: with every verdict `{"is_correct_website":
false}`, all four per-lead steps leave the store untouched. -/
theorem C4_witness :
    ∃ st', fmwStep envNo { db := dbOne } 1 = .ok (st', 0) ∧ st'.db = dbOne :=
  (C4_amended_fail_closed envNo { db := dbOne } 1 leadAcme rfl (by decide)
    (fun _ => ⟨.dict [("is_correct_website", .bool false)], rfl, rfl⟩)
    (fun _ => ⟨.dict [("is_correct_website", .bool false)], rfl, rfl⟩)).1

/-- **C7 (amended)**: for a lead missing website, phone and email whose
website resolution accepts no candidate across all query variants, the
find-and-fill workflows skip the contact step entirely (no navigation and no
extraction call is logged, the store is untouched) and do not count the
record as updated; however `find_and_fill_with_selenium` counts the record
in the second component of its return value — the slot its callers label
"Failed" — rather than reporting it separately from failures
(`fill_missing_data_for_leads` returns only the updated count). -/
theorem C7_amended_no_accept_skips_contact (env : Env) (st : WState) (i : Nat)
    (lead : Lead)
    (hfound : get_lead_by_id st.db i = some lead)
    (hnoweb : truthy lead.website = false)
    (hnophone : truthy lead.phone = false)
    (hnoemail : truthy lead.email = false)
    (hrej : rejectsTruthy env lead) :
    (∃ st', ffStep env st i = .ok (st', 0) ∧ st'.db = st.db ∧
      searchOnlyLog st st' lead) ∧
    (∃ st', fillStep env st i = .ok (st', 0) ∧ st'.db = st.db ∧
      searchOnlyLog st st' lead) ∧
    (∃ stf, find_and_fill_with_selenium env st.db [i] = .ok (0, 1, stf) ∧
      stf.db = st.db) := by
  refine ⟨ffStep_reject env st i lead hfound hnoweb hrej,
    fillStep_reject env st i lead hfound hnoweb hrej, ?_⟩
  obtain ⟨st', h1, h2, _⟩ :=
    ffStep_reject env ({ db := st.db } : WState) i lead hfound hnoweb hrej
  refine ⟨st', ?_, h2⟩
  simp [find_and_fill_with_selenium, find_and_fill_with_selenium.go, h1]

/-- Witness for the amended C7: concrete single-lead run with rejecting
verdicts — the contact step never runs and the store is unchanged. -/
theorem C7_witness :
    ∃ stf, find_and_fill_with_selenium envNo dbOne [1] = .ok (0, 1, stf) ∧
      stf.db = dbOne :=
  (C7_amended_no_accept_skips_contact envNo { db := dbOne } 1 leadAcme rfl
    (by decide) (by decide) (by decide)
    (fun _ => ⟨.dict [("is_correct_website", .bool false)], rfl, rfl⟩)).2.2

/-! ## Claim C5 (amended): failure isolation of the deep-analysis batch -/

theorem enrich_go_all_ok (env : DeepEnv) :
    ∀ (ids : List Nat) (succ fail : Nat) (processed : List Nat),
    (∀ i ∈ ids, ∃ s, env.step i = .ok (true, s)) →
    enrich_leads_with_ai_agent_batch.go env succ fail processed ids =
      (succ + ids.length, fail, processed ++ ids) := by
  intro ids
  induction ids with
  | nil =>
    intro succ fail processed _
    simp [enrich_leads_with_ai_agent_batch.go]
  | cons i rest ih =>
    intro succ fail processed hok
    obtain ⟨s, hs⟩ := hok i (List.mem_cons_self i rest)
    have := ih (succ + 1) fail (processed ++ [i])
      (fun j hj => hok j (List.mem_cons_of_mem i hj))
    simp only [enrich_leads_with_ai_agent_batch.go, hs, this]
    simp [Prod.ext_iff]
    try omega

theorem enrich_go_one_error (env : DeepEnv) :
    ∀ (ids : List Nat) (k : Nat) (e : PyErr) (succ fail : Nat)
      (processed : List Nat),
    ids.count k = 1 →
    env.step k = .error e →
    (∀ i ∈ ids, i ≠ k → ∃ s, env.step i = .ok (true, s)) →
    enrich_leads_with_ai_agent_batch.go env succ fail processed ids =
      (succ + (ids.length - 1), fail + 1, processed ++ ids) := by
  intro ids
  induction ids with
  | nil =>
    intro k e succ fail processed hc _ _
    simp at hc
  | cons i rest ih =>
    intro k e succ fail processed hc hstep hothers
    by_cases hik : i = k
    · subst hik
      have hcr : rest.count i = 0 := by
        rw [List.count_cons_self] at hc
        omega
      have hnot : i ∉ rest := by
        intro hmem
        have := List.count_pos_iff.mpr hmem
        omega
      have hallok : ∀ j ∈ rest, ∃ s, env.step j = .ok (true, s) := by
        intro j hj
        refine hothers j (List.mem_cons_of_mem i hj) ?_
        intro hjk
        exact hnot (hjk ▸ hj)
      have hrest := enrich_go_all_ok env rest succ (fail + 1) (processed ++ [i]) hallok
      simp only [enrich_leads_with_ai_agent_batch.go, hstep, hrest]
      simp [Prod.ext_iff]
      try omega
    · obtain ⟨s, hs⟩ := hothers i (List.mem_cons_self i rest) hik
      have hcr : rest.count k = 1 := by
        rw [List.count_cons_of_ne (fun h => hik h.symm)] at hc
        exact hc
      have hlen : 1 ≤ rest.length := by
        have : k ∈ rest := List.count_pos_iff.mp (by omega)
        cases rest with
        | nil => cases this
        | cons a t => simp
      have := ih k e (succ + 1) fail (processed ++ [i]) hcr hstep
        (fun j hj hjk => hothers j (List.mem_cons_of_mem i hj) hjk)
      simp only [enrich_leads_with_ai_agent_batch.go, hs, this]
      simp [Prod.ext_iff]
      try omega

/-- **C5 (amended)**: `enrich_leads_with_ai_agent_batch` isolates per-record
failures: in a batch where exactly one record's processing raises and every
other record succeeds, the exception is caught at the per-record boundary,
all `N` records are processed, and the returned counts are
`(N - 1 successes, 1 failure)`.  (In `fill_missing_data_for_leads` and
`find_and_fill_with_selenium` a per-record exception instead aborts the
batch — see the counterexample.) -/
theorem C5_amended_batch_isolation (env : DeepEnv) (ids : List Nat) (k : Nat)
    (e : PyErr)
    (hc : ids.count k = 1)
    (hstep : env.step k = .error e)
    (hothers : ∀ i ∈ ids, i ≠ k → ∃ s, env.step i = .ok (true, s)) :
    enrich_leads_with_ai_agent_batch env ids = (ids.length - 1, 1, ids) := by
  have := enrich_go_one_error env ids k e 0 0 [] hc hstep hothers
  simpa [enrich_leads_with_ai_agent_batch] using this

def deepEnvW : DeepEnv :=
  { step := fun i => if i = 2 then .error .attributeError else .ok (true, "ok") }

/-- Witness for the amended C5: record 2 of three raises; the batch reports
2 successes, 1 failure, and all three records were processed. -/
theorem C5_witness :
    enrich_leads_with_ai_agent_batch deepEnvW [1, 2, 3] = (2, 1, [1, 2, 3]) :=
  C5_amended_batch_isolation deepEnvW [1, 2, 3] 2 .attributeError (by decide)
    rfl (fun i _ hne => ⟨"ok", by simp [deepEnvW, hne]⟩)

end Leadgenpro
